import Mathlib

/-!
# Verification of the Seedsigner Codex32 core against its specification

Shallow embedding of the codex32/BIP-93 core of the repository:

* `codex32_min.py` — charset, `ms32_polymod` / `ms32_long_polymod`, checksum
  creation/verification, `ms32_encode`, string parsing (`_decode_data_values`,
  `Codex32String`), payload repacking, `bech32_mul`, Lagrange interpolation
  (`bech32_lagrange`, `ms32_interpolate`, `Codex32String.interpolate_at`);
* `gf32.py` — LOG/EXP tables and field operations used by the BCH decoder;
* `bch_decoder.py` — syndromes, Berlekamp-Massey, Chien search, Forney,
  `decode_bch`, `decode_with_erasures`;
* `error_correction.py` — validated combinatorial search (`try_correct_errors`).

Python strings are modelled as `List Char` (all inputs of interest are
printable ASCII, which the code itself validates), machine integers as `Nat`
with explicit masking, raised exceptions as `Except String`.
-/

namespace Codex32

/-- Decidable equality for `Except`, used to evaluate the embedded fallible
functions on concrete inputs. -/
instance {ε α : Type} [DecidableEq ε] [DecidableEq α] : DecidableEq (Except ε α) := fun x y =>
  match x, y with
  | .ok a, .ok b =>
    if h : a = b then isTrue (congrArg Except.ok h)
    else isFalse (fun he => h (Except.ok.inj he))
  | .error e, .error f =>
    if h : e = f then isTrue (congrArg Except.error h)
    else isFalse (fun he => h (Except.error.inj he))
  | .ok _, .error _ => isFalse (fun he => Except.noConfusion he)
  | .error _, .ok _ => isFalse (fun he => Except.noConfusion he)

/-- The bech32 character set (`CHARSET` in `codex32_min.py` and `gf32.py`). -/
def CHARSET : List Char :=
  ['q','p','z','r','y','9','x','8','g','f','2','t','v','d','w','0',
   's','3','j','n','5','4','k','h','c','e','6','m','u','a','7','l']

/-- `CHARSET_MAP[c]` for characters known to be in the charset
(`List.indexOf` returns the first index, and `CHARSET` has no duplicates). -/
def charsetIndex (c : Char) : Nat := CHARSET.indexOf c

/-- `CHARSET_MAP.get(c)`: `some index` when `c` is a charset character. -/
def charsetIndexOpt (c : Char) : Option Nat :=
  if c ∈ CHARSET then some (CHARSET.indexOf c) else none

/-- `CHARSET[d]` for a field element `d < 32`. -/
def charsetChar (d : Nat) : Char := CHARSET.getD d ' '

def MS32_CONST : Nat := 0x10CE0795C2FD1E62A

def MS32_LONG_CONST : Nat := 0x43381E570BF4798AB26

/-- `BECH32_INV` table from `codex32_min.py`. -/
def BECH32_INV : List Nat :=
  [0, 1, 20, 24, 10, 8, 12, 29, 5, 11, 4, 9, 6, 28, 26, 31,
   22, 18, 17, 23, 2, 25, 16, 19, 3, 21, 14, 30, 13, 7, 27, 15]

/-- The five generator constants of `ms32_polymod`. -/
def MS32_GEN : List Nat :=
  [0x19DC500CE73FDE210, 0x1BFAE00DEF77FE529, 0x1FBD920FFFE7BEE52,
   0x1739640BDEEE3FDAD, 0x07729A039CFC75F5A]

/-- The five generator constants of `ms32_long_polymod`. -/
def MS32_LONG_GEN : List Nat :=
  [0x3D59D273535EA62D897, 0x7A9BECB6361C6C51507, 0x543F9B7E6C38D8A2A0E,
   0x0C577EAECCF1990D13C, 0x1887F74F8DC71B10651]

/-- The XOR of the selected generators: `residue ^= gen[i] if ((b >> i) & 1) else 0`
for `i = 0..4`, starting from `0`. -/
def genXor (gens : List Nat) (b : Nat) : Nat :=
  (List.range 5).foldl (fun r i => r ^^^ (if (b >>> i) &&& 1 = 1 then gens.getD i 0 else 0)) 0

/-- One iteration of the `for v in values` loop of `ms32_polymod` /
`ms32_long_polymod`, generic in the generator table, the top-symbol shift
amount `B` (60 short / 70 long) and the corresponding mask `2 ^ B - 1`. -/
def polyStep (gens : List Nat) (B mask : Nat) (residue v : Nat) : Nat :=
  let b := residue >>> B
  let r := ((residue &&& mask) <<< 5) ^^^ v
  (List.range 5).foldl (fun r i => r ^^^ (if (b >>> i) &&& 1 = 1 then gens.getD i 0 else 0)) r

/-- `ms32_polymod` step: `b = residue >> 60; residue = (residue & 0x0FFFFFFFFFFFFFFF) << 5 ^ v`
followed by the generator XORs. -/
def ms32_polymodStep : Nat → Nat → Nat := polyStep MS32_GEN 60 0x0FFFFFFFFFFFFFFF

/-- `ms32_polymod` from `codex32_min.py`. -/
def ms32_polymod (values : List Nat) : Nat :=
  values.foldl ms32_polymodStep 0x23181B3

/-- `ms32_long_polymod` step with shift 70 and mask `0x3FFFFFFFFFFFFFFFFF`. -/
def ms32_long_polymodStep : Nat → Nat → Nat := polyStep MS32_LONG_GEN 70 0x3FFFFFFFFFFFFFFFFF

/-- `ms32_long_polymod` from `codex32_min.py`. -/
def ms32_long_polymod (values : List Nat) : Nat :=
  values.foldl ms32_long_polymodStep 0x23181B3

/-- `ms32_verify_long_checksum`. -/
def ms32_verify_long_checksum (data : List Nat) : Bool :=
  ms32_long_polymod data = MS32_LONG_CONST

/-- `ms32_create_long_checksum`: 15 five-bit chunks of
`ms32_long_polymod(data + [0]*15) ^ MS32_LONG_CONST`. -/
def ms32_create_long_checksum (data : List Nat) : List Nat :=
  let polymod := ms32_long_polymod (data ++ List.replicate 15 0) ^^^ MS32_LONG_CONST
  (List.range 15).map (fun i => (polymod >>> (5 * (14 - i))) &&& 31)

/-- `ms32_verify_checksum`: long set for total length >= 96, short set for
total length <= 93, `False` in between. -/
def ms32_verify_checksum (data : List Nat) : Bool :=
  if 96 ≤ data.length then ms32_verify_long_checksum data
  else if data.length ≤ 93 then ms32_polymod data = MS32_CONST
  else false

/-- `ms32_create_checksum`: long variant for more than 80 data symbols,
otherwise 13 five-bit chunks of `ms32_polymod(data + [0]*13) ^ MS32_CONST`. -/
def ms32_create_checksum (data : List Nat) : List Nat :=
  if 80 < data.length then ms32_create_long_checksum data
  else
    let polymod := ms32_polymod (data ++ List.replicate 13 0) ^^^ MS32_CONST
    (List.range 13).map (fun i => (polymod >>> (5 * (12 - i))) &&& 31)

/-- `ms32_encode`: `"ms1"` followed by data plus checksum, rendered in the charset. -/
def ms32_encode (data : List Nat) : List Char :=
  ['m','s','1'] ++ (data ++ ms32_create_checksum data).map charsetChar

/-- `_checksum_length`. -/
def _checksum_length (data_values : List Nat) : Nat :=
  if 96 ≤ data_values.length then 15 else 13

/-! ### Python string helpers (ASCII, which is all the code accepts) -/

/-- Python `str.lower` on one ASCII character. -/
def pyLowerChar (c : Char) : Char :=
  if 'A' ≤ c ∧ c ≤ 'Z' then Char.ofNat (c.toNat + 32) else c

/-- Python `str.upper` on one ASCII character. -/
def pyUpperChar (c : Char) : Char :=
  if 'a' ≤ c ∧ c ≤ 'z' then Char.ofNat (c.toNat - 32) else c

def pyLower (s : List Char) : List Char := s.map pyLowerChar

def pyUpper (s : List Char) : List Char := s.map pyUpperChar

/-- ASCII whitespace stripped by Python `str.strip`. -/
def pyIsSpace (c : Char) : Bool :=
  c = ' ' ∨ c = '\t' ∨ c = '\n' ∨ c = '\x0d' ∨ c = Char.ofNat 11 ∨ c = Char.ofNat 12

def pyStrip (s : List Char) : List Char :=
  ((s.dropWhile pyIsSpace).reverse.dropWhile pyIsSpace).reverse

/-- Python `str.rfind` restricted to a single character: index of the last
occurrence, `none` standing for Python result `-1`. -/
def rfind (s : List Char) (c : Char) : Option Nat :=
  match s with
  | [] => none
  | x :: xs =>
    match rfind xs c with
    | some p => some (p + 1)
    | none => if x = c then some 0 else none

/-! ### Parsing (`_decode_data_values`, `_payload_to_bytes`, `Codex32String`) -/

/-- `_decode_data_values` from `codex32_min.py`.  Error strings follow the
Python messages (without the quoted character in the share-index message). -/
def _decode_data_values (codex_str : List Char) : Except String (List Nat × String) :=
  if codex_str.any (fun x => x.toNat < 33 ∨ 126 < x.toNat) then
    .error "Codex32 input contains invalid characters"
  else if ¬ (codex_str = pyLower codex_str ∨ codex_str = pyUpper codex_str) then
    .error "Codex32 input must be single-case"
  else
    let case := if codex_str = pyUpper codex_str then "upper" else "lower"
    let codex := pyLower codex_str
    match rfind codex '1' with
    | none => .error "Codex32 input has invalid length"
    | some pos =>
      if pos < 2 ∨ ¬ (48 ≤ codex.length ∧ codex.length ≤ 127) then
        .error "Codex32 input has invalid length"
      else if codex.take pos ≠ ['m', 's'] then
        .error "Codex32 input must start with ms1"
      else
        let data_part := codex.drop (pos + 1)
        if data_part.isEmpty then
          .error "Codex32 input missing data payload"
        else if ¬ data_part.all (· ∈ CHARSET) then
          .error "Codex32 input has non-bech32 characters"
        else if data_part.headD ' ' ∉ ['0','2','3','4','5','6','7','8','9'] then
          .error "Codex32 threshold must be 0 or 2-9"
        else if data_part.headD ' ' = '0' ∧ 5 < data_part.length ∧ data_part.getD 5 ' ' ≠ 's' then
          .error "Codex32 share index must be s when threshold is 0"
        else
          let data_values := data_part.map charsetIndex
          if ¬ ms32_verify_checksum data_values then
            .error "Codex32 checksum failed"
          else
            .ok (data_values, case)

/-- Inner `while bits >= 8` loop of `_payload_to_bytes`.  `fuel` starts at
`bits`, which bounds the number of iterations (each one removes 8 bits). -/
def _emit_bytes : Nat → Nat → Nat → List Nat → Nat × Nat × List Nat
  | 0, acc, bits, out => (acc, bits, out)
  | fuel + 1, acc, bits, out =>
    if 8 ≤ bits then
      let bits' := bits - 8
      _emit_bytes fuel (acc &&& ((1 <<< bits') - 1)) bits' (((acc >>> bits') &&& 0xFF) :: out)
    else (acc, bits, out)

/-- Main loop of `_payload_to_bytes` (output bytes are accumulated in reverse). -/
def _payload_to_bytes_go : List Nat → Nat → Nat → List Nat → List Nat
  | [], _, _, out => out.reverse
  | v :: rest, acc, bits, out =>
    let acc := (acc <<< 5) ||| v
    let bits := bits + 5
    let s := _emit_bytes bits acc bits out
    _payload_to_bytes_go rest s.1 s.2.1 s.2.2

/-- `_payload_to_bytes`: MSB-first 5-bit to 8-bit repacking, dropping
trailing partial bits. -/
def _payload_to_bytes (payload_values : List Nat) : List Nat :=
  _payload_to_bytes_go payload_values 0 0 []

/-- The parsed `Codex32String` record (its `__post_init__` fields). -/
structure Codex32Parsed where
  value : List Char
  case : String
  dataPartValues : List Nat
  k : Char
  ident : List Char
  share_idx : Char
  payloadValues : List Nat
  data : List Nat
deriving DecidableEq, Repr

/-- `Codex32String(value)`: validate and populate the derived fields. -/
def Codex32String.parse (s : List Char) : Except String Codex32Parsed := do
  let r ← _decode_data_values s
  let data_values := r.1
  let checksum_len := _checksum_length data_values
  let data_part_values := data_values.take (data_values.length - checksum_len)
  let data_part_chars := data_part_values.map charsetChar
  .ok { value := s
        case := r.2
        dataPartValues := data_part_values
        k := data_part_chars.headD ' '
        ident := (data_part_chars.drop 1).take 4
        share_idx := data_part_chars.getD 5 ' '
        payloadValues := data_part_values.drop 6
        data := _payload_to_bytes (data_part_values.drop 6) }

/-! ### ShareMath (`bech32_mul`, `bech32_lagrange`, `ms32_interpolate`) -/

/-- `bech32_mul`: shift-and-reduce multiplication with polynomial constant 41. -/
def bech32_mul (a b : Nat) : Nat :=
  ((List.range 5).foldl (fun (p : Nat × Nat) i =>
    let res := p.1 ^^^ (if (b >>> i) &&& 1 = 1 then p.2 else 0)
    let a2 := p.2 * 2
    let a2 := a2 ^^^ (if 32 ≤ a2 then 41 else 0)
    (res, a2)) (0, a)).1

/-- Discrete-log table for `bech32_mul` (generator 2, dummy entry at 0),
used only to reason about the multiplication, validated by `bech32_mul_table`. -/
def BECH32_LOG : List Nat :=
  [0, 0, 1, 14, 2, 28, 15, 22, 3, 5, 29, 26, 16, 7, 23, 11,
   4, 25, 6, 10, 30, 13, 27, 21, 17, 18, 8, 19, 24, 9, 12, 20]

/-- Power table for `bech32_mul` (powers of the generator 2). -/
def BECH32_EXP : List Nat :=
  [1, 2, 4, 8, 16, 9, 18, 13, 26, 29, 19, 15, 30, 21, 3, 6,
   12, 24, 25, 27, 31, 23, 7, 14, 28, 17, 11, 22, 5, 10, 20]

/-- `bech32_lagrange` from `codex32_min.py`. -/
def bech32_lagrange (indices : List Nat) (x : Nat) : List Nat :=
  let n := indices.foldl (fun n i => bech32_mul n (i ^^^ x)) 1
  let coeffs := indices.map (fun i =>
    indices.foldl (fun m j => bech32_mul m ((if i = j then x else i) ^^^ j)) 1)
  coeffs.map (fun c => bech32_mul n (BECH32_INV.getD c 0))

/-- `ms32_interpolate`: weights from the share indices (position 5), then an
XOR-weighted sum at every position of the first share. -/
def ms32_interpolate (shares : List (List Nat)) (x : Nat) : List Nat :=
  let weights := bech32_lagrange (shares.map (fun s => s.getD 5 0)) x
  (List.range (shares.headD []).length).map (fun i =>
    (weights.zip shares).foldl (fun n wj => n ^^^ bech32_mul wj.1 (wj.2.getD i 0)) 0)

/-- `Codex32String.interpolate_at`. -/
def Codex32String.interpolate_at (shares : List Codex32Parsed) (target : Char) :
    Except String Codex32Parsed :=
  match shares with
  | [] => .error "No shares provided for interpolation"
  | first :: _ =>
    match charsetIndexOpt (pyLowerChar target) with
    | none => .error ("Invalid target share index " ++ String.singleton target)
    | some target_val =>
      let base_len := first.dataPartValues.length
      if shares.any (fun share => share.dataPartValues.length ≠ base_len) then
        .error "Shares must be the same length for interpolation"
      else
        let interpolated := ms32_interpolate (shares.map (fun s => s.dataPartValues)) target_val
        let encoded := ms32_encode interpolated
        let encoded := if first.case = "upper" then pyUpper encoded else encoded
        Codex32String.parse encoded

/-! ### GF(32) tables and operations (`gf32.py`) -/

/-- `LOG` table from `gf32.py` (`-1` is the sentinel for `LOG[0]`). -/
def LOG : List Int :=
  [-1, 0, 1, 18, 2, 5, 19, 11, 3, 29, 6, 27, 20, 8, 12, 23,
   4, 10, 30, 17, 7, 22, 28, 26, 21, 25, 9, 16, 13, 14, 24, 15]

/-- `EXP` table from `gf32.py` (extended to 62 entries). -/
def EXP : List Nat :=
  [1, 2, 4, 8, 16, 5, 10, 20, 13, 26, 17, 7, 14, 28, 29, 31,
   27, 19, 3, 6, 12, 24, 21, 15, 30, 25, 23, 11, 22, 9, 18,
   1, 2, 4, 8, 16, 5, 10, 20, 13, 26, 17, 7, 14, 28, 29, 31,
   27, 19, 3, 6, 12, 24, 21, 15, 30, 25, 23, 11, 22, 9, 18]

/-- `LOG[a]` as a natural number (only evaluated by the code at nonzero `a`,
where the table entry is nonnegative). -/
def logN (a : Nat) : Nat := (LOG.getD a (-1)).toNat

/-- `gf32_add` (XOR). -/
def gf32_add (a b : Nat) : Nat := a ^^^ b

/-- `gf32_mul` via the LOG/EXP tables. -/
def gf32_mul (a b : Nat) : Nat :=
  if a = 0 ∨ b = 0 then 0 else EXP.getD (logN a + logN b) 0

/-- `gf32_div`; raises `ZeroDivisionError` on a zero divisor. -/
def gf32_div (a b : Nat) : Except String Nat :=
  if b = 0 then .error "Division by zero in GF(32)"
  else if a = 0 then .ok 0
  else .ok (EXP.getD ((LOG.getD a (-1) - LOG.getD b (-1)).emod 31).toNat 0)

/-- `gf32_inv`; raises `ZeroDivisionError` on zero. -/
def gf32_inv (a : Nat) : Except String Nat :=
  if a = 0 then .error "Zero has no multiplicative inverse"
  else .ok (EXP.getD (31 - logN a) 0)

/-- `gf32_pow` with a (possibly negative) integer exponent. -/
def gf32_pow (a : Nat) (n : Int) : Except String Nat :=
  if a = 0 then .ok (if 0 < n then 0 else 1)
  else if n = 0 then .ok 1
  else if n < 0 then do
    let ai ← gf32_inv a
    .ok (EXP.getD (logN ai * (-n).toNat % 31) 0)
  else .ok (EXP.getD (logN a * n.toNat % 31) 0)

/-- `gf32_pow` restricted to natural exponents, where it is total
(see `gf32_pow_ofNat`); used to embed the decoder loops that call
`gf32_pow` with loop indices. -/
def gf32_pow_nat (a n : Nat) : Nat :=
  if a = 0 then (if 0 < n then 0 else 1)
  else if n = 0 then 1
  else EXP.getD (logN a * n % 31) 0

/-! ### BCH decoder (`bch_decoder.py`) -/

/-- `compute_syndromes`: evaluate the received polynomial at
`alpha^j` for `j = 1..num_syndromes` (coefficient `i` is `data[i]`). -/
def compute_syndromes (data : List Nat) (num_syndromes : Nat) : List Nat :=
  (List.range' 1 num_syndromes).map (fun j =>
    let alpha_j := if j % 31 ≠ 0 then EXP.getD (j % 31) 0 else 1
    (List.range data.length).foldl (fun s_j i =>
      let coef := data.getD i 0
      if coef ≠ 0 then gf32_add s_j (gf32_mul coef (gf32_pow_nat alpha_j i)) else s_j) 0)

/-- `syndromes_are_zero`. -/
def syndromes_are_zero (syndromes : List Nat) : Bool :=
  syndromes.all (· = 0)

/-- `berlekamp_massey`: the state is `(C, B, L, m, b)`. -/
def berlekamp_massey (syndromes : List Nat) : Except String (List Nat) :=
  (do
    let st ← (List.range syndromes.length).foldlM
      (fun (st : List Nat × List Nat × Nat × Nat × Nat) i => do
        let C := st.1
        let B := st.2.1
        let L := st.2.2.1
        let m := st.2.2.2.1
        let b := st.2.2.2.2
        let d := (List.range' 1 L).foldl (fun d j =>
          if j < C.length ∧ j ≤ i then
            gf32_add d (gf32_mul (C.getD j 0) (syndromes.getD (i - j) 0))
          else d) (syndromes.getD i 0)
        if d = 0 then
          pure (C, B, L, m + 1, b)
        else if 2 * L ≤ i then do
          let T := C
          let coef ← gf32_div d b
          let C := C ++ List.replicate (B.length + m - C.length) 0
          let C := (List.range B.length).foldl (fun C j =>
            C.set (j + m) (gf32_add (C.getD (j + m) 0) (gf32_mul coef (B.getD j 0)))) C
          pure (C, T, i + 1 - L, 1, d)
        else do
          let coef ← gf32_div d b
          let C := C ++ List.replicate (B.length + m - C.length) 0
          let C := (List.range B.length).foldl (fun C j =>
            C.set (j + m) (gf32_add (C.getD (j + m) 0) (gf32_mul coef (B.getD j 0)))) C
          pure (C, B, L, m + 1, b))
      ([1], [1], 0, 1, 1)
    pure st.1)

/-- The loop of `chien_search`, with the early break once
`num_errors` roots are found; `fuel` counts the remaining positions. -/
def chienGo (error_locator : List Nat) (num_errors : Nat) :
    Nat → Nat → List Nat → List Nat
  | 0, _, acc => acc.reverse
  | fuel + 1, j, acc =>
    let alpha_neg_j := if j % 31 ≠ 0 then EXP.getD ((31 - j % 31) % 31) 0 else 1
    let result := (List.range error_locator.length).foldl (fun r i =>
      let coef := error_locator.getD i 0
      if coef ≠ 0 then gf32_add r (gf32_mul coef (gf32_pow_nat alpha_neg_j i)) else r) 0
    if result = 0 then
      if acc.length + 1 = num_errors then (j :: acc).reverse
      else chienGo error_locator num_errors fuel (j + 1) (j :: acc)
    else chienGo error_locator num_errors fuel (j + 1) acc

/-- `chien_search`. -/
def chien_search (error_locator : List Nat) (n : Nat) : List Nat :=
  chienGo error_locator (error_locator.length - 1) n 0 []

/-- `forney_algorithm`; the Python `dict` (insertion-ordered) is an
association list. -/
def forney_algorithm (syndromes error_locator : List Nat)
    (error_positions : List Nat) : Except String (List (Nat × Nat)) :=
  let two_t := syndromes.length
  let om := (List.range syndromes.length).foldl (fun om i =>
    (List.range error_locator.length).foldl (fun om j =>
      if i + j < two_t then
        om.set (i + j) (gf32_add (om.getD (i + j) 0)
          (gf32_mul (syndromes.getD i 0) (error_locator.getD j 0)))
      else om) om) (List.replicate two_t 0)
  let lambda_prime := (List.range' 1 (error_locator.length - 1)).map (fun i =>
    if i % 2 = 1 then error_locator.getD i 0 else 0)
  error_positions.foldlM (fun acc pos => do
    let X_i := if pos % 31 ≠ 0 then EXP.getD (pos % 31) 0 else 1
    let X_i_inv ← gf32_inv X_i
    let omega_val := (List.range om.length).foldl (fun r i =>
      let o := om.getD i 0
      if o ≠ 0 then gf32_add r (gf32_mul o (gf32_pow_nat X_i_inv i)) else r) 0
    let lambda_prime_val := (List.range lambda_prime.length).foldl (fun r i =>
      let lp := lambda_prime.getD i 0
      if lp ≠ 0 then gf32_add r (gf32_mul lp (gf32_pow_nat X_i_inv i)) else r) 0
    if lambda_prime_val ≠ 0 then do
      let q ← gf32_div omega_val lambda_prime_val
      pure (acc ++ [(pos, gf32_mul X_i q)])
    else
      pure (acc ++ [(pos, 0)])) []

/-- `CorrectionResult` from `bch_decoder.py`. -/
structure BCHCorrectionResult where
  success : Bool
  corrected_data : Option (List Nat) := none
  error_positions : Option (List Nat) := none
  error_values : Option (List (Nat × Nat)) := none
  error_message : Option String := none
deriving DecidableEq, Repr

/-- `decode_bch`. -/
def decode_bch (data : List Nat) (max_errors : Nat) : Except String BCHCorrectionResult := do
  let syndromes := compute_syndromes data 8
  if syndromes_are_zero syndromes then
    return { success := true, corrected_data := some data,
             error_positions := some [], error_values := some [] }
  let error_locator ← berlekamp_massey syndromes
  let num_errors := error_locator.length - 1
  if max_errors < num_errors then
    return { success := false,
             error_message := some ("Too many errors detected (" ++ toString num_errors ++
               "), max correctable is " ++ toString max_errors) }
  if num_errors = 0 then
    return { success := false,
             error_message := some "Decoding failure: non-zero syndromes but no error locator" }
  let error_positions := chien_search error_locator data.length
  if error_positions.length ≠ num_errors then
    return { success := false,
             error_message := some ("Chien search found " ++ toString error_positions.length ++
               " positions, expected " ++ toString num_errors) }
  let error_values ← forney_algorithm syndromes error_locator error_positions
  let corrected_data := error_values.foldl (fun cd pm =>
    if pm.2 ≠ 0 then cd.set pm.1 (gf32_add (cd.getD pm.1 0) pm.2) else cd) data
  let verify_syndromes := compute_syndromes corrected_data 8
  if ¬ syndromes_are_zero verify_syndromes then
    return { success := false,
             error_message := some "Correction verification failed: syndromes still non-zero" }
  return { success := true, corrected_data := some corrected_data,
           error_positions := some error_positions, error_values := some error_values }

/-- `decode_with_erasures`: rejects more than `2 * max_errors` erasure
positions, otherwise delegates to the plain decoder. -/
def decode_with_erasures (data erasure_positions : List Nat) (max_errors : Nat) :
    Except String BCHCorrectionResult :=
  if 2 * max_errors < erasure_positions.length then
    .ok { success := false,
          error_message := some ("Too many erasures (" ++ toString erasure_positions.length ++
            "), max is " ++ toString (2 * max_errors)) }
  else
    decode_bch data max_errors

/-! ### Search corrector (`error_correction.py`) -/

/-- `CorrectionCandidate` from `error_correction.py`. -/
structure CorrectionCandidate where
  corrected_string : List Char
  original_string : List Char
  error_count : Nat
  error_positions : List Nat
  error_details : List (Nat × Char × Char)
deriving DecidableEq, Repr

/-- `CorrectionResult` from `error_correction.py`. -/
structure SearchCorrectionResult where
  success : Bool
  candidates : List CorrectionCandidate
  error_message : Option String := none
deriving DecidableEq, Repr

/-- `_validate_codex32`: `True` exactly when `Codex32String(s)` does not raise. -/
def _validate_codex32 (s : List Char) : Bool :=
  (Codex32String.parse s).isOk

/-- `_generate_single_substitutions` with the default `start_pos = 3`:
for each data position and charset character differing from the original,
yield `(modified, position, original_char, new_char)`. -/
def _generate_single_substitutions (s : List Char) : List (List Char × Nat × Char × Char) :=
  let s_lower := pyLower s
  (List.range' 3 (s_lower.length - 3)).flatMap (fun pos =>
    let original_char := s_lower.getD pos ' '
    (CHARSET.filter (· ≠ original_char)).map (fun new_char =>
      (s_lower.set pos new_char, pos, original_char, new_char)))

/-- `itertools.combinations` in the same (lexicographic) order. -/
def combinations {α : Type} : List α → Nat → List (List α)
  | _, 0 => [[]]
  | [], _ + 1 => []
  | x :: xs, k + 1 => (combinations xs k).map (x :: ·) ++ combinations xs (k + 1)

/-- `itertools.product` over a list of option lists, in the same order. -/
def cartesianProduct {α : Type} : List (List α) → List (List α)
  | [] => [[]]
  | l :: ls => l.flatMap (fun x => (cartesianProduct ls).map (x :: ·))

/-- `_generate_multi_substitutions` with the default `start_pos = 3`. -/
def _generate_multi_substitutions (s : List Char) (num_errors : Nat) :
    List (List Char × List (Nat × Char × Char)) :=
  let s_lower := pyLower s
  let data_positions := List.range' 3 (s_lower.length - 3)
  (combinations data_positions num_errors).flatMap (fun positions =>
    let original_chars := positions.map (fun p => s_lower.getD p ' ')
    let replacement_options := original_chars.map (fun orig => CHARSET.filter (· ≠ orig))
    (cartesianProduct replacement_options).map (fun new_chars =>
      let changes := (positions.zip (original_chars.zip new_chars)).map
        (fun t => (t.1, t.2.1, t.2.2))
      (changes.foldl (fun cs t => cs.set t.1 t.2.2) s_lower, changes)))

/-- The valid candidates collected at one error count (the body of the
`for num_errors` loop of `try_correct_errors`, in generation order). -/
def _candidates_at (s : List Char) (num_errors : Nat) : List CorrectionCandidate :=
  if num_errors = 1 then
    (_generate_single_substitutions s).filterMap (fun t =>
      if _validate_codex32 t.1 then
        some { corrected_string := t.1, original_string := s, error_count := 1,
               error_positions := [t.2.1], error_details := [(t.2.1, t.2.2.1, t.2.2.2)] }
      else none)
  else
    (_generate_multi_substitutions s num_errors).filterMap (fun t =>
      if _validate_codex32 t.1 then
        some { corrected_string := t.1, original_string := s, error_count := num_errors,
               error_positions := t.2.map (fun c => c.1), error_details := t.2 }
      else none)

/-- The `for num_errors in range(1, max_errors + 1)` loop: stop at the first
count that yields candidates; with `stop_on_first`, return only the first
candidate found. -/
def _search_counts (s : List Char) (stop_on_first : Bool) : List Nat → List CorrectionCandidate
  | [] => []
  | n :: rest =>
    let cs := _candidates_at s n
    if cs.isEmpty then _search_counts s stop_on_first rest
    else if stop_on_first then cs.take 1 else cs

/-- `try_correct_errors` from `error_correction.py`. -/
def try_correct_errors (codex32_str : List Char) (max_errors : Nat)
    (stop_on_first : Bool) : SearchCorrectionResult :=
  let s := pyStrip codex32_str
  if s.isEmpty then
    { success := false, candidates := [], error_message := some "Empty input string" }
  else if _validate_codex32 s then
    { success := true,
      candidates := [{ corrected_string := s, original_string := s, error_count := 0,
                       error_positions := [], error_details := [] }] }
  else
    let max_errors := min max_errors 4
    let cands := _search_counts s stop_on_first (List.range' 1 max_errors)
    if cands.isEmpty then
      { success := false, candidates := [],
        error_message := some ("No valid correction found with up to " ++
          toString max_errors ++ " errors") }
    else
      { success := true, candidates := cands }


/-! ### Shared test-vector constants (BIP-93 vector 2, from the repository tests) -/

/-- Share A of BIP-93 test vector 2. -/
def shareAChars : List Char := "MS12NAMEA320ZYXWVUTSRQPNMLKJHGFEDCAXRPP870HKKQRM".toList

/-- Share C of BIP-93 test vector 2. -/
def shareCChars : List Char := "MS12NAMECACDEFGHJKLMNPQRSTUVWXYZ023FTR2GDZMPY6PN".toList

/-- The S-share of BIP-93 test vector 2. -/
def vector2SChars : List Char := "MS12NAMES6XQGUZTTXKEQNJSJZV4JV3NZ5K3KWGSPHUH6EVW".toList

/-- Data part (including checksum) of the vector-2 S-share, as field elements. -/
def vector2SData : List Nat := ((pyLower vector2SChars).drop 3).map charsetIndex

/-- The 94-symbol sequence whose long polymod equals the long constant. -/
def lenNinetyFourSeq : List Nat :=
  List.replicate 79 0 ++ ms32_create_long_checksum (List.replicate 79 0)

/-- Lowercase form of the vector-2 S share. -/
def c3LowerChars : List Char := "ms12names6xqguzttxkeqnjsjzv4jv3nz5k3kwgsphuh6evw".toList

/-- C10 evaluation: the two GF(32) implementations disagree at `a = 2, b = 16`
(and the inverse tables disagree at `a = 2`), while each is consistent with
its own multiplication. -/
theorem c10_field_tables_disagree :
    bech32_mul 2 16 = 9 ∧ gf32_mul 2 16 = 5 ∧
    gf32_inv 2 = .ok 18 ∧ BECH32_INV.getD 2 0 = 20 ∧
    bech32_mul 2 20 = 1 ∧ gf32_mul 2 18 = 1 := by
  refine ⟨rfl, rfl, rfl, rfl, rfl, rfl⟩

set_option maxRecDepth 8000 in
/-- C1 counterexample: the valid vector-2 S-share passes `ms32_verify_checksum`
but its eight BCH syndromes are not all zero. -/
theorem c1_counterexample :
    ms32_verify_checksum vector2SData = true ∧
    compute_syndromes vector2SData 8 = [17, 26, 15, 24, 20, 6, 10, 9] ∧
    syndromes_are_zero (compute_syndromes vector2SData 8) = false := by
  refine ⟨by decide, by decide, by decide⟩

set_option maxRecDepth 8000 in
/-- C1 amended: syndrome-zero and checksum-valid are not equivalent, in either
direction, already at the supported data length 45. -/
theorem c1_amended_not_equivalent :
    (∃ data : List Nat, data.length = 45 ∧ ms32_verify_checksum data = true ∧
      syndromes_are_zero (compute_syndromes data 8) = false) ∧
    (∃ data : List Nat, data.length = 45 ∧
      syndromes_are_zero (compute_syndromes data 8) = true ∧
      ms32_verify_checksum data = false) :=
  ⟨⟨vector2SData, by decide, by decide, by decide⟩,
   ⟨List.replicate 45 0, by decide, by decide, by decide⟩⟩

set_option maxRecDepth 8000 in
/-- C7 counterexample: a 94-symbol sequence folding to the long constant is
nevertheless rejected by `ms32_verify_checksum`. -/
theorem c7_counterexample :
    lenNinetyFourSeq.length = 94 ∧
    ms32_long_polymod lenNinetyFourSeq = MS32_LONG_CONST ∧
    ms32_verify_checksum lenNinetyFourSeq = false := by
  refine ⟨by decide, by decide, by decide⟩

/-- C7 amended: selection is by total symbol count with a gap: short set for
length at most 93, long set for length at least 96, unconditional rejection
of lengths 94 and 95. -/
theorem c7_amended_variant_selection (data : List Nat) :
    (data.length ≤ 93 → (ms32_verify_checksum data = true ↔ ms32_polymod data = MS32_CONST)) ∧
    (96 ≤ data.length →
      (ms32_verify_checksum data = true ↔ ms32_long_polymod data = MS32_LONG_CONST)) ∧
    (data.length = 94 ∨ data.length = 95 → ms32_verify_checksum data = false) := by
  unfold ms32_verify_checksum ms32_verify_long_checksum
  refine ⟨fun h93 => ?_, fun h96 => ?_, fun h9495 => ?_⟩
  · split
    · omega
    · simp [h93]
  · simp [h96]
  · split
    · omega
    · split
      · omega
      · rfl

/-- Witness for `c7_amended_variant_selection` at the empty sequence. -/
theorem c7_amended_witness :
    ([] : List Nat).length ≤ 93 ∧
    (ms32_verify_checksum [] = true ↔ ms32_polymod [] = MS32_CONST) :=
  ⟨by decide, (c7_amended_variant_selection []).1 (by decide)⟩

/-- C8 counterexample: `gf32_pow(0, -1)` returns 1 instead of failing with the
division-by-zero condition. -/
theorem c8_counterexample :
    gf32_pow 0 (-1) = .ok 1 ∧ gf32_pow 0 (-7) = .ok 1 := ⟨rfl, rfl⟩

/-- C8 amended: `a^0 = 1` for every `a`; `0^n = 0` for `n > 0`; `0^n = 1` for
`n < 0` (the zero-base branch precedes the inversion); and for nonzero `a`
and negative `n`, `pow(a,n)` equals `pow(inv(a), -n)`. -/
theorem c8_amended_pow_convention (a : Nat) (ha : a < 32) (n : Int) :
    gf32_pow a 0 = .ok 1 ∧
    (a = 0 → 0 < n → gf32_pow a n = .ok 0) ∧
    (a = 0 → n < 0 → gf32_pow a n = .ok 1) ∧
    (a ≠ 0 → n < 0 →
      ∃ ai, gf32_inv a = .ok ai ∧ gf32_pow a n = gf32_pow ai (-n)) := by
  refine ⟨?_, fun h0 hn => ?_, fun h0 hn => ?_, fun h0 hn => ?_⟩
  · unfold gf32_pow
    split
    · norm_num
    · simp
  · subst h0
    unfold gf32_pow
    simp [hn]
  · subst h0
    unfold gf32_pow
    simp [hn]
    omega
  · refine ⟨EXP.getD (31 - logN a) 0, ?_, ?_⟩
    · unfold gf32_inv
      simp [h0]
    · have hai : EXP.getD (31 - logN a) 0 ≠ 0 := by
        revert h0
        revert ha
        revert a
        decide
      have h1 : gf32_pow a n =
          .ok (EXP.getD (logN (EXP.getD (31 - logN a) 0) * (-n).toNat % 31) 0) := by
        unfold gf32_pow gf32_inv
        rw [if_neg h0, if_neg (by omega : ¬ n = 0), if_pos hn, if_neg h0]
        rfl
      have h2 : gf32_pow (EXP.getD (31 - logN a) 0) (-n) =
          .ok (EXP.getD (logN (EXP.getD (31 - logN a) 0) * (-n).toNat % 31) 0) := by
        unfold gf32_pow
        rw [if_neg hai, if_neg (by omega : ¬ (-n : Int) = 0),
          if_neg (by omega : ¬ (-n : Int) < 0)]
      rw [h1, h2]

/-- Witness for `c8_amended_pow_convention` at `a = 3`, `n = -2`. -/
theorem c8_amended_witness :
    3 < 32 ∧ (3 ≠ 0 ∧ (-2 : Int) < 0) ∧
    (∃ ai, gf32_inv 3 = .ok ai ∧ gf32_pow 3 (-2) = gf32_pow ai (-(-2))) :=
  ⟨by decide, ⟨by decide, by decide⟩,
    (c8_amended_pow_convention 3 (by decide) (-2)).2.2.2 (by decide) (by decide)⟩

/-- C9: with the default capacity 4, `decode_with_erasures` fails for more
than 8 erasure positions and otherwise returns exactly `decode_bch data 4`;
the supplied positions have no other influence. -/
theorem c9_erasures_delegate (data erasure_positions : List Nat) :
    (8 < erasure_positions.length →
      decode_with_erasures data erasure_positions 4 =
        .ok { success := false,
              error_message := some ("Too many erasures (" ++
                toString erasure_positions.length ++ "), max is " ++ toString (8 : Nat)) }) ∧
    (erasure_positions.length ≤ 8 →
      decode_with_erasures data erasure_positions 4 = decode_bch data 4) := by
  unfold decode_with_erasures
  constructor
  · intro h
    split
    · rfl
    · omega
  · intro h
    split
    · omega
    · rfl

/-- Witness for `c9_erasures_delegate`: empty erasure list on a small input. -/
theorem c9_erasures_witness :
    ([] : List Nat).length ≤ 8 ∧
    decode_with_erasures [2, 3, 4] [] 4 = decode_bch [2, 3, 4] 4 :=
  ⟨by decide, (c9_erasures_delegate [2, 3, 4] []).2 (by decide)⟩

set_option maxRecDepth 16000 in
/-- C4: interpolating shares A and C of BIP-93 vector 2 at the secret index
yields the expected S-share string, whose payload bytes are
`d1 80 8e 09 6b 35 b2 09 ca 12 13 2b 26 46 62 a5` (hex
`d1808e096b35b209ca12132b264662a5`). -/
theorem c4_vector2_interpolation :
    (((Codex32String.parse shareAChars).bind fun a =>
      (Codex32String.parse shareCChars).bind fun c =>
        Codex32String.interpolate_at [a, c] 's').map
      (fun r => (r.value, r.data))) =
    .ok (vector2SChars,
      [0xd1, 0x80, 0x8e, 0x09, 0x6b, 0x35, 0xb2, 0x09,
       0xca, 0x12, 0x13, 0x2b, 0x26, 0x46, 0x62, 0xa5]) := by
  decide

set_option maxRecDepth 16000 in
/-- C2 counterexample: interpolating share A together with itself does run the
interpolation (no duplicate-index rejection exists in this layer) and fails
only afterwards, when the interpolated all-zero data part is re-parsed and
hits the threshold-digit check. -/
theorem c2_counterexample :
    ((Codex32String.parse shareAChars).bind fun a =>
      Codex32String.interpolate_at [a, a] 's') =
    .error "Codex32 threshold must be 0 or 2-9" := by
  decide



/-! ### C2: duplicate shares (amended behavior) -/

/-- Interpolating a pair of identical shares yields the all-zero vector:
both copies receive the same Lagrange weight, and the XOR-weighted sum
cancels position by position. -/
theorem ms32_interpolate_self_pair (d : List Nat) (x : Nat) :
    ms32_interpolate [d, d] x = List.replicate d.length 0 := by
  simp [ms32_interpolate, bech32_lagrange, Nat.xor_self, List.map_const']

set_option maxRecDepth 8000 in
/-- C2 amended: `interpolate_at` on a duplicated share runs the interpolation
(producing the all-zero data part) and fails with the threshold-digit error
from re-parsing the encoded result - not with a duplicate-index error. -/
theorem c2_amended_duplicate_shares (A : Codex32Parsed)
    (hlen : A.dataPartValues.length = 32) :
    Codex32String.interpolate_at [A, A] 's' =
      .error "Codex32 threshold must be 0 or 2-9" := by
  have h16 : charsetIndexOpt (pyLowerChar 's') = some 16 := rfl
  have elow : Codex32String.parse (ms32_encode (List.replicate 32 0)) =
      .error "Codex32 threshold must be 0 or 2-9" := by decide
  have eup : Codex32String.parse (pyUpper (ms32_encode (List.replicate 32 0))) =
      .error "Codex32 threshold must be 0 or 2-9" := by decide
  simp only [Codex32String.interpolate_at, h16, List.any_cons, List.any_nil, ne_eq,
    not_true_eq_false, decide_False, Bool.or_self, Bool.false_eq_true, if_false,
    List.map_cons, List.map_nil]
  rw [ms32_interpolate_self_pair, hlen]
  by_cases hc : A.case = "upper"
  · rw [if_pos hc]
    exact eup
  · rw [if_neg hc]
    exact elow

/-- Witness for `c2_amended_duplicate_shares` on a concrete parsed record. -/
theorem c2_amended_witness :
    (List.replicate 32 1).length = 32 ∧
    Codex32String.interpolate_at
      [⟨[], "lower", List.replicate 32 1, ' ', [], ' ', [], []⟩,
       ⟨[], "lower", List.replicate 32 1, ' ', [], ' ', [], []⟩] 's' =
      .error "Codex32 threshold must be 0 or 2-9" :=
  ⟨by decide,
   c2_amended_duplicate_shares ⟨[], "lower", List.replicate 32 1, ' ', [], ' ', [], []⟩
     (by decide)⟩

/-! ### C6: order-independence of interpolation -/

/-- XOR of two field elements stays in range. -/
theorem xor_lt_32 : ∀ a < 32, ∀ b < 32, a ^^^ b < 32 := by decide

/-- `bech32_mul` keeps field elements in range. -/
theorem bech32_mul_lt : ∀ a < 32, ∀ b < 32, bech32_mul a b < 32 := by decide

set_option maxRecDepth 4000 in
/-- On field elements, `bech32_mul` agrees with the log/exp tables of the
generator 2 (zero annihilates). -/
theorem bech32_mul_table : ∀ a < 32, ∀ b < 32,
    bech32_mul a b = if a = 0 ∨ b = 0 then 0
      else BECH32_EXP.getD ((BECH32_LOG.getD a 0 + BECH32_LOG.getD b 0) % 31) 0 := by
  decide

/-- Log-table entries are below the group order. -/
theorem bech32_log_lt : ∀ a < 32, BECH32_LOG.getD a 0 < 31 := by decide

/-- Power-table entries are nonzero field elements, and taking the log of a
power recovers the exponent. -/
theorem bech32_exp_facts : ∀ k < 31, BECH32_EXP.getD k 0 ≠ 0 ∧
    BECH32_EXP.getD k 0 < 32 ∧ BECH32_LOG.getD (BECH32_EXP.getD k 0) 0 = k := by
  decide

/-- Folding `bech32_mul` is insensitive to the order of the last two factors
(on field elements). -/
theorem bech32_mul_right_comm :
    ∀ a < 32, ∀ b < 32, ∀ c < 32,
      bech32_mul (bech32_mul a b) c = bech32_mul (bech32_mul a c) b := by
  intro a ha b hb c hc
  have hab := bech32_mul_table a ha b hb
  have hac := bech32_mul_table a ha c hc
  by_cases ha0 : a = 0
  · subst ha0
    rw [hab, if_pos (Or.inl rfl), hac, if_pos (Or.inl rfl)]
    rw [bech32_mul_table 0 (by norm_num) b hb, if_pos (Or.inl rfl)]
  · by_cases hb0 : b = 0
    · subst hb0
      rw [hab, if_pos (Or.inr rfl)]
      rw [bech32_mul_table 0 (by norm_num) c hc, if_pos (Or.inl rfl)]
      rw [bech32_mul_table (bech32_mul a c) (bech32_mul_lt a ha c hc) 0 (by norm_num),
        if_pos (Or.inr rfl)]
    · by_cases hc0 : c = 0
      · subst hc0
        rw [hac, if_pos (Or.inr rfl)]
        rw [bech32_mul_table 0 (by norm_num) b hb, if_pos (Or.inl rfl)]
        rw [bech32_mul_table (bech32_mul a b) (bech32_mul_lt a ha b hb) 0 (by norm_num),
          if_pos (Or.inr rfl)]
      · rw [hab, if_neg (by tauto), hac, if_neg (by tauto)]
        have hmod1 : (BECH32_LOG.getD a 0 + BECH32_LOG.getD b 0) % 31 < 31 :=
          Nat.mod_lt _ (by norm_num)
        have hmod2 : (BECH32_LOG.getD a 0 + BECH32_LOG.getD c 0) % 31 < 31 :=
          Nat.mod_lt _ (by norm_num)
        obtain ⟨hE1ne, hE1lt, hE1log⟩ := bech32_exp_facts _ hmod1
        obtain ⟨hE2ne, hE2lt, hE2log⟩ := bech32_exp_facts _ hmod2
        rw [bech32_mul_table _ hE1lt c hc, if_neg (by tauto),
          bech32_mul_table _ hE2lt b hb, if_neg (by tauto)]
        rw [hE1log, hE2log]
        congr 1
        rw [Nat.mod_add_mod, Nat.mod_add_mod]
        omega

/-- A `bech32_mul` product-fold over field elements is permutation-invariant. -/
theorem foldl_bech32_mul_perm {α : Type} (g : α → Nat) :
    ∀ {l1 l2 : List α}, l1.Perm l2 → (∀ a ∈ l1, g a < 32) →
      ∀ acc, acc < 32 →
        l1.foldl (fun n i => bech32_mul n (g i)) acc =
          l2.foldl (fun n i => bech32_mul n (g i)) acc := by
  intro l1 l2 hp
  induction hp with
  | nil => intro _ acc _; rfl
  | cons x _ ih =>
    intro hg acc hacc
    simp only [List.foldl_cons]
    exact ih (fun a ha => hg a (List.mem_cons_of_mem x ha))
      (bech32_mul acc (g x))
      (bech32_mul_lt acc hacc (g x) (hg x (List.mem_cons_self x _)))
  | swap x y l =>
    intro hg acc hacc
    simp only [List.foldl_cons]
    rw [bech32_mul_right_comm acc hacc (g y) (hg y (List.mem_cons_self y _)) (g x)
      (hg x (List.mem_cons_of_mem y (List.mem_cons_self x _)))]
  | trans h12 _ ih1 ih2 =>
    intro hg acc hacc
    rw [ih1 hg acc hacc, ih2 (fun a ha => hg a (h12.mem_iff.mpr ha)) acc hacc]

/-- An XOR-accumulating fold is permutation-invariant. -/
theorem foldl_xor_perm {α : Type} (g : α → Nat) :
    ∀ {l1 l2 : List α}, l1.Perm l2 →
      ∀ acc, l1.foldl (fun n s => n ^^^ g s) acc = l2.foldl (fun n s => n ^^^ g s) acc := by
  intro l1 l2 hp
  induction hp with
  | nil => intro acc; rfl
  | cons x _ ih => intro acc; simp only [List.foldl_cons]; exact ih _
  | swap x y l =>
    intro acc
    simp only [List.foldl_cons]
    rw [Nat.xor_assoc, Nat.xor_comm (g y) (g x), ← Nat.xor_assoc]
  | trans _ _ ih1 ih2 => intro acc; rw [ih1, ih2]

/-- Zipping a mapped list with the original tuples each element with its image. -/
theorem zip_map_self {α β : Type} (f : α → β) :
    ∀ l : List α, (l.map f).zip l = l.map (fun a => (f a, a))
  | [] => rfl
  | x :: xs => by simp only [List.map_cons, List.zip_cons_cons, zip_map_self f xs]

/-- Bounded `getD`: share index symbols of bounded shares stay below 32. -/
theorem getD_lt_32 (s : List Nat) (h : ∀ v ∈ s, v < 32) : s.getD 5 0 < 32 := by
  by_cases h5 : 5 < s.length
  · rw [List.getD_eq_getElem s 0 h5]
    exact h _ (List.getElem_mem h5)
  · rw [List.getD_eq_default s 0 (by omega)]
    omega

/-- The Lagrange weight list is the share list mapped through a single
weight function of the share index. -/
theorem bech32_lagrange_as_map (indices : List Nat) (x : Nat) :
    bech32_lagrange indices x = indices.map (fun i =>
      bech32_mul (indices.foldl (fun n i => bech32_mul n (i ^^^ x)) 1)
        (BECH32_INV.getD
          (indices.foldl (fun m j => bech32_mul m ((if i = j then x else i) ^^^ j)) 1) 0)) := by
  unfold bech32_lagrange
  rw [List.map_map]
  rfl

/-- C6: interpolation is order-independent. For a share set with
pairwise-distinct index symbols, field-element entries and equal lengths,
interpolating any permutation of the list at any target index yields the
identical symbol vector. -/
theorem c6_interpolation_order_independent (shares shares2 : List (List Nat)) (x : Nat)
    (hperm : shares2.Perm shares) (hx : x < 32)
    (hvals : ∀ s ∈ shares, ∀ v ∈ s, v < 32)
    (hlen : ∀ s ∈ shares, s.length = (shares.headD []).length)
    (hdist : (shares.map (fun s => s.getD 5 0)).Nodup) :
    ms32_interpolate shares2 x = ms32_interpolate shares x := by
  have hvals2 : ∀ s ∈ shares2, ∀ v ∈ s, v < 32 := fun s hs => hvals s (hperm.mem_iff.mp hs)
  have hidx : ∀ s ∈ shares, s.getD 5 0 < 32 := fun s hs => getD_lt_32 s (hvals s hs)
  have hidx2 : ∀ s ∈ shares2, s.getD 5 0 < 32 := fun s hs => getD_lt_32 s (hvals2 s hs)
  have hpidx : (shares2.map (fun s => s.getD 5 0)).Perm (shares.map (fun s => s.getD 5 0)) :=
    hperm.map _
  have hmemidx2 : ∀ a ∈ shares2.map (fun s => s.getD 5 0), a < 32 := by
    intro a ha
    rcases List.mem_map.mp ha with ⟨s, hs, rfl⟩
    exact hidx2 s hs
  -- the numerator is a product over the index multiset
  have hn : (shares2.map (fun s => s.getD 5 0)).foldl (fun n i => bech32_mul n (i ^^^ x)) 1 =
      (shares.map (fun s => s.getD 5 0)).foldl (fun n i => bech32_mul n (i ^^^ x)) 1 :=
    foldl_bech32_mul_perm _ hpidx
      (fun a ha => xor_lt_32 a (hmemidx2 a ha) x hx) 1 (by omega)
  -- each denominator likewise, for any in-range reference index
  have hm : ∀ i < 32,
      (shares2.map (fun s => s.getD 5 0)).foldl
          (fun m j => bech32_mul m ((if i = j then x else i) ^^^ j)) 1 =
        (shares.map (fun s => s.getD 5 0)).foldl
          (fun m j => bech32_mul m ((if i = j then x else i) ^^^ j)) 1 := by
    intro i hi
    refine foldl_bech32_mul_perm _ hpidx ?_ 1 (by omega)
    intro a ha
    by_cases hij : i = a
    · rw [if_pos hij]
      exact xor_lt_32 x hx a (hmemidx2 a ha)
    · rw [if_neg hij]
      exact xor_lt_32 i hi a (hmemidx2 a ha)
  -- both weight lists are the share lists mapped through the same function
  have hw2 : bech32_lagrange (shares2.map (fun s => s.getD 5 0)) x =
      shares2.map (fun s =>
        bech32_mul ((shares.map (fun s => s.getD 5 0)).foldl
            (fun n i => bech32_mul n (i ^^^ x)) 1)
          (BECH32_INV.getD
            ((shares.map (fun s => s.getD 5 0)).foldl
              (fun m j => bech32_mul m ((if s.getD 5 0 = j then x else s.getD 5 0) ^^^ j)) 1)
            0)) := by
    rw [bech32_lagrange_as_map, List.map_map]
    refine List.map_congr_left ?_
    intro s hs
    simp only [Function.comp]
    rw [hn, hm (s.getD 5 0) (hidx2 s hs)]
  have hw1 : bech32_lagrange (shares.map (fun s => s.getD 5 0)) x =
      shares.map (fun s =>
        bech32_mul ((shares.map (fun s => s.getD 5 0)).foldl
            (fun n i => bech32_mul n (i ^^^ x)) 1)
          (BECH32_INV.getD
            ((shares.map (fun s => s.getD 5 0)).foldl
              (fun m j => bech32_mul m ((if s.getD 5 0 = j then x else s.getD 5 0) ^^^ j)) 1)
            0)) := by
    rw [bech32_lagrange_as_map, List.map_map]
    rfl
  -- the two leading shares have the same length
  have hhead : (shares2.headD []).length = (shares.headD []).length := by
    cases h2 : shares2 with
    | nil =>
      have hs : shares = [] := (List.Perm.nil_eq (h2 ▸ hperm)).symm
      rw [hs]
    | cons a t =>
      have ha : a ∈ shares := hperm.mem_iff.mp (by rw [h2]; exact List.mem_cons_self a t)
      simpa using hlen a ha
  -- assemble
  simp only [ms32_interpolate]
  rw [hw2, hw1, hhead]
  refine List.map_congr_left ?_
  intro i _
  simp only [zip_map_self, List.foldl_map]
  exact foldl_xor_perm _ hperm 0

/-- Witness for `c6_interpolation_order_independent` on a two-share set. -/
theorem c6_witness :
    [[1,1,1,1,1,4,2],[0,2,0,0,0,9,1]].Perm [[0,2,0,0,0,9,1],[1,1,1,1,1,4,2]] ∧
    ms32_interpolate [[1,1,1,1,1,4,2],[0,2,0,0,0,9,1]] 16 =
      ms32_interpolate [[0,2,0,0,0,9,1],[1,1,1,1,1,4,2]] 16 :=
  ⟨List.Perm.swap _ _ _,
   c6_interpolation_order_independent [[0,2,0,0,0,9,1],[1,1,1,1,1,4,2]]
     [[1,1,1,1,1,4,2],[0,2,0,0,0,9,1]] 16
     (List.Perm.swap _ _ _) (by decide) (by decide) (by decide) (by decide)⟩



/-! ### Bitwise toolbox for the polymod algebra -/

theorem xor_shiftRight_distrib (a b k : Nat) : (a ^^^ b) >>> k = (a >>> k) ^^^ (b >>> k) := by
  apply Nat.eq_of_testBit_eq
  intro i
  simp [Nat.testBit_shiftRight, Nat.testBit_xor]

theorem xor_shiftLeft_distrib (a b k : Nat) : (a ^^^ b) <<< k = (a <<< k) ^^^ (b <<< k) := by
  apply Nat.eq_of_testBit_eq
  intro i
  simp only [Nat.testBit_shiftLeft, Nat.testBit_xor]
  by_cases h : k ≤ i <;> simp [h]

theorem xor_mod_two_pow (a b n : Nat) : (a ^^^ b) % 2 ^ n = (a % 2 ^ n) ^^^ (b % 2 ^ n) := by
  rw [← Nat.and_pow_two_sub_one_eq_mod, ← Nat.and_pow_two_sub_one_eq_mod,
    ← Nat.and_pow_two_sub_one_eq_mod, Nat.and_xor_distrib_right]

/-- Reassembling a value from its upper bits and its low five bits. -/
theorem shift_unshift (y : Nat) : ((y >>> 5) <<< 5) ^^^ (y &&& 31) = y := by
  apply Nat.eq_of_testBit_eq
  intro i
  simp only [Nat.testBit_xor, Nat.testBit_shiftLeft, Nat.testBit_shiftRight, Nat.testBit_and]
  by_cases h : 5 ≤ i
  · rw [show 5 + (i - 5) = i by omega]
    rw [show (31 : Nat) = 2 ^ 5 - 1 by norm_num, Nat.testBit_two_pow_sub_one]
    simp [h, show ¬ i < 5 by omega]
  · rw [show (31 : Nat) = 2 ^ 5 - 1 by norm_num, Nat.testBit_two_pow_sub_one]
    simp [h, show i < 5 by omega]

theorem xor_left_cancel_nat {a b c : Nat} (h : a ^^^ b = a ^^^ c) : b = c := by
  have h2 := congrArg (fun t => a ^^^ t) h
  simpa [← Nat.xor_assoc, Nat.xor_self] using h2

theorem xor_right_cancel_nat {a b c : Nat} (h : a ^^^ c = b ^^^ c) : a = b := by
  have h2 := congrArg (fun t => t ^^^ c) h
  simpa [Nat.xor_assoc, Nat.xor_self] using h2

/-- Pulling the start value out of an XOR-accumulating fold. -/
theorem foldl_xor_start {α : Type} (f : α → Nat) :
    ∀ (l : List α) (x : Nat),
      l.foldl (fun r i => r ^^^ f i) x = x ^^^ l.foldl (fun r i => r ^^^ f i) 0
  | [], x => by simp
  | a :: l, x => by
    rw [List.foldl_cons, List.foldl_cons, foldl_xor_start f l (x ^^^ f a),
      foldl_xor_start f l (0 ^^^ f a), Nat.zero_xor, Nat.xor_assoc]

/-- The polymod step in closed form: shift the masked residue, XOR the symbol,
XOR the generator combination selected by the top bits. -/
theorem polyStep_eq (gens : List Nat) (B : Nat) (r v : Nat) :
    polyStep gens B (2 ^ B - 1) r v =
      (((r % 2 ^ B) <<< 5) ^^^ v) ^^^ genXor gens (r >>> B) := by
  unfold polyStep genXor
  rw [Nat.and_pow_two_sub_one_eq_mod]
  exact foldl_xor_start _ _ _

/-- The top symbol of a bounded residue is a field element. -/
theorem shiftR_lt_32 (B r : Nat) (hr : r < 2 ^ (B + 5)) : r >>> B < 32 := by
  rw [Nat.shiftRight_eq_div_pow]
  apply Nat.div_lt_of_lt_mul
  calc r < 2 ^ (B + 5) := hr
    _ = 2 ^ B * 32 := by rw [pow_add]; norm_num

/-- The polymod step preserves the residue bound. -/
theorem polyStep_bound (gens : List Nat) (B : Nat)
    (hgb : ∀ b < 32, genXor gens b < 2 ^ (B + 5)) (r v : Nat)
    (hr : r < 2 ^ (B + 5)) (hv : v < 32) :
    polyStep gens B (2 ^ B - 1) r v < 2 ^ (B + 5) := by
  rw [polyStep_eq]
  have h1 : (r % 2 ^ B) <<< 5 < 2 ^ (B + 5) := by
    rw [Nat.shiftLeft_eq]
    calc (r % 2 ^ B) * 2 ^ 5 < 2 ^ B * 2 ^ 5 :=
          (Nat.mul_lt_mul_right (by norm_num)).mpr (Nat.mod_lt r (Nat.two_pow_pos B))
      _ = 2 ^ (B + 5) := (pow_add 2 B 5).symm
  have h2 : v < 2 ^ (B + 5) := lt_of_lt_of_le hv (by
    calc (32 : Nat) = 2 ^ 5 := by norm_num
      _ ≤ 2 ^ (B + 5) := Nat.pow_le_pow_right (by norm_num) (by omega))
  have h3 : genXor gens (r >>> B) < 2 ^ (B + 5) := hgb _ (shiftR_lt_32 B r hr)
  exact Nat.xor_lt_two_pow (Nat.xor_lt_two_pow h1 h2) h3

/-- The polymod step is injective in the incoming residue (bounded residues),
provided the low five bits of `genXor` determine the top symbol. -/
theorem polyStep_r_inj (gens : List Nat) (B : Nat)
    (hinj : ∀ b1 < 32, ∀ b2 < 32,
      genXor gens b1 % 32 = genXor gens b2 % 32 → b1 = b2)
    (r1 r2 v : Nat) (h1 : r1 < 2 ^ (B + 5)) (h2 : r2 < 2 ^ (B + 5))
    (heq : polyStep gens B (2 ^ B - 1) r1 v = polyStep gens B (2 ^ B - 1) r2 v) :
    r1 = r2 := by
  rw [polyStep_eq, polyStep_eq] at heq
  -- compare low five bits: the shifted parts vanish, `v` cancels
  have hb : r1 >>> B = r2 >>> B := by
    have hlow := congrArg (fun t => t % 2 ^ 5) heq
    simp only [xor_mod_two_pow] at hlow
    have hsh1 : ((r1 % 2 ^ B) <<< 5) % 2 ^ 5 = 0 := by
      rw [Nat.shiftLeft_eq]
      simp [Nat.mul_mod_left]
    have hsh2 : ((r2 % 2 ^ B) <<< 5) % 2 ^ 5 = 0 := by
      rw [Nat.shiftLeft_eq]
      simp [Nat.mul_mod_left]
    rw [hsh1, hsh2] at hlow
    simp only [Nat.zero_xor] at hlow
    have hcan := xor_left_cancel_nat hlow
    have hcan32 := hcan
    norm_num at hcan32
    exact hinj _ (shiftR_lt_32 B r1 h1) _ (shiftR_lt_32 B r2 h2) hcan32
  rw [hb] at heq
  have hsh := xor_right_cancel_nat (xor_right_cancel_nat heq)
  have hmod : r1 % 2 ^ B = r2 % 2 ^ B := by
    rw [Nat.shiftLeft_eq, Nat.shiftLeft_eq] at hsh
    exact Nat.eq_of_mul_eq_mul_right (by norm_num) hsh
  have hd1 := Nat.div_add_mod r1 (2 ^ B)
  have hd2 := Nat.div_add_mod r2 (2 ^ B)
  rw [Nat.shiftRight_eq_div_pow, Nat.shiftRight_eq_div_pow] at hb
  have hbm : 2 ^ B * (r1 / 2 ^ B) = 2 ^ B * (r2 / 2 ^ B) := by rw [hb]
  omega

/-- The polymod step is injective in the incoming symbol. -/
theorem polyStep_v_inj (gens : List Nat) (B : Nat) (r v1 v2 : Nat)
    (heq : polyStep gens B (2 ^ B - 1) r v1 = polyStep gens B (2 ^ B - 1) r v2) :
    v1 = v2 := by
  rw [polyStep_eq, polyStep_eq] at heq
  exact xor_left_cancel_nat (xor_right_cancel_nat heq)

/-- Folding the polymod step preserves the residue bound. -/
theorem polyFold_bound (gens : List Nat) (B : Nat)
    (hgb : ∀ b < 32, genXor gens b < 2 ^ (B + 5)) :
    ∀ (vs : List Nat) (r : Nat), r < 2 ^ (B + 5) → (∀ v ∈ vs, v < 32) →
      vs.foldl (polyStep gens B (2 ^ B - 1)) r < 2 ^ (B + 5)
  | [], r, hr, _ => hr
  | v :: vs, r, hr, hv => by
    rw [List.foldl_cons]
    exact polyFold_bound gens B hgb vs _
      (polyStep_bound gens B hgb r v hr (hv v (List.mem_cons_self v vs)))
      (fun w hw => hv w (List.mem_cons_of_mem v hw))

/-- Folding the polymod step is injective in the starting residue. -/
theorem polyFold_r_inj (gens : List Nat) (B : Nat)
    (hgb : ∀ b < 32, genXor gens b < 2 ^ (B + 5))
    (hinj : ∀ b1 < 32, ∀ b2 < 32,
      genXor gens b1 % 32 = genXor gens b2 % 32 → b1 = b2) :
    ∀ (vs : List Nat) (r1 r2 : Nat), r1 < 2 ^ (B + 5) → r2 < 2 ^ (B + 5) →
      (∀ v ∈ vs, v < 32) →
      vs.foldl (polyStep gens B (2 ^ B - 1)) r1 = vs.foldl (polyStep gens B (2 ^ B - 1)) r2 →
      r1 = r2
  | [], r1, r2, _, _, _, h => h
  | v :: vs, r1, r2, h1, h2, hv, h => by
    rw [List.foldl_cons, List.foldl_cons] at h
    have hv32 := hv v (List.mem_cons_self v vs)
    have := polyFold_r_inj gens B hgb hinj vs _ _
      (polyStep_bound gens B hgb r1 v h1 hv32)
      (polyStep_bound gens B hgb r2 v h2 hv32)
      (fun w hw => hv w (List.mem_cons_of_mem v hw)) h
    exact polyStep_r_inj gens B hinj r1 r2 v h1 h2 this

/-- Changing one symbol of the folded list changes the final residue. -/
theorem polyFold_single_ne (gens : List Nat) (B : Nat)
    (hgb : ∀ b < 32, genXor gens b < 2 ^ (B + 5))
    (hinj : ∀ b1 < 32, ∀ b2 < 32,
      genXor gens b1 % 32 = genXor gens b2 % 32 → b1 = b2)
    (pre post : List Nat) (a c init : Nat)
    (hpre : ∀ v ∈ pre, v < 32) (hpost : ∀ v ∈ post, v < 32)
    (ha : a < 32) (hc : c < 32)
    (hinit : init < 2 ^ (B + 5)) (hne : a ≠ c) :
    (pre ++ a :: post).foldl (polyStep gens B (2 ^ B - 1)) init ≠
      (pre ++ c :: post).foldl (polyStep gens B (2 ^ B - 1)) init := by
  intro h
  rw [List.foldl_append, List.foldl_append, List.foldl_cons, List.foldl_cons] at h
  have hr : pre.foldl (polyStep gens B (2 ^ B - 1)) init < 2 ^ (B + 5) :=
    polyFold_bound gens B hgb pre init hinit hpre
  have hstep := polyFold_r_inj gens B hgb hinj post _ _
    (polyStep_bound gens B hgb _ a hr ha)
    (polyStep_bound gens B hgb _ c hr hc)
    hpost h
  exact hne (polyStep_v_inj gens B _ a c hstep)



/-! ### Checksum creation produces verifying sequences -/

theorem nat_xor_left_comm (a b c : Nat) : a ^^^ (b ^^^ c) = b ^^^ (a ^^^ c) := by
  rw [← Nat.xor_assoc, Nat.xor_comm a b, Nat.xor_assoc]

/-- Splitting the symbol out of a polymod step. -/
theorem polyStep_v_split (gens : List Nat) (B r v : Nat) :
    polyStep gens B (2 ^ B - 1) r v = polyStep gens B (2 ^ B - 1) r 0 ^^^ v := by
  rw [polyStep_eq, polyStep_eq]
  simp [Nat.xor_assoc, Nat.xor_comm, nat_xor_left_comm]

/-- A small XOR-perturbation of the residue travels through one step as a
five-bit shift (it never reaches the top symbol). -/
theorem polyStep_xor_small (gens : List Nat) (B r δ v : Nat) (hδ : δ < 2 ^ B) :
    polyStep gens B (2 ^ B - 1) (r ^^^ δ) v =
      polyStep gens B (2 ^ B - 1) r v ^^^ (δ <<< 5) := by
  rw [polyStep_eq, polyStep_eq]
  have h1 : (r ^^^ δ) >>> B = r >>> B := by
    rw [xor_shiftRight_distrib]
    have hz : δ >>> B = 0 := by
      rw [Nat.shiftRight_eq_div_pow]
      exact Nat.div_eq_of_lt hδ
    rw [hz, Nat.xor_zero]
  have h2 : (r ^^^ δ) % 2 ^ B = (r % 2 ^ B) ^^^ δ := by
    rw [xor_mod_two_pow, Nat.mod_eq_of_lt hδ]
  rw [h1, h2, xor_shiftLeft_distrib]
  simp [Nat.xor_assoc, Nat.xor_comm, nat_xor_left_comm]

/-- A small XOR-perturbation travels through a whole fold as a shift by five
bits per folded symbol, as long as it never overflows the register. -/
theorem polyFold_xor_small (gens : List Nat) (B : Nat) :
    ∀ (xs : List Nat) (r δ : Nat), δ <<< (5 * xs.length) < 2 ^ (B + 5) →
      xs.foldl (polyStep gens B (2 ^ B - 1)) (r ^^^ δ) =
        xs.foldl (polyStep gens B (2 ^ B - 1)) r ^^^ (δ <<< (5 * xs.length))
  | [], r, δ, _ => by simp
  | x :: xs, r, δ, h => by
    have hsh : (δ <<< 5) <<< (5 * xs.length) = δ <<< (5 * (x :: xs).length) := by
      rw [← Nat.shiftLeft_add]
      congr 1
      simp [List.length_cons]
      ring
    have hδB : δ < 2 ^ B := by
      rw [Nat.shiftLeft_eq] at h
      have h32 : δ * 2 ^ 5 ≤ δ * 2 ^ (5 * (x :: xs).length) :=
        Nat.mul_le_mul_left δ (Nat.pow_le_pow_right (by norm_num) (by simp [List.length_cons]))
      have hlt : δ * 2 ^ 5 < 2 ^ (B + 5) := lt_of_le_of_lt h32 h
      rw [pow_add] at hlt
      exact Nat.lt_of_mul_lt_mul_right hlt
    rw [List.foldl_cons, List.foldl_cons, polyStep_xor_small gens B r δ x hδB,
      polyFold_xor_small gens B xs (polyStep gens B (2 ^ B - 1) r x) (δ <<< 5)
        (by rw [hsh]; exact h),
      hsh]

/-- Packing a symbol list MSB-first into an integer, five bits per symbol. -/
def packSyms (l : List Nat) : Nat :=
  l.foldl (fun acc v => (acc <<< 5) ^^^ v) 0

theorem packSyms_start :
    ∀ (l : List Nat) (a b : Nat),
      l.foldl (fun acc v => (acc <<< 5) ^^^ v) (a ^^^ b) =
        l.foldl (fun acc v => (acc <<< 5) ^^^ v) a ^^^ (b <<< (5 * l.length))
  | [], a, b => by simp
  | x :: l, a, b => by
    rw [List.foldl_cons, List.foldl_cons]
    have h1 : ((a ^^^ b) <<< 5) ^^^ x = ((a <<< 5) ^^^ x) ^^^ (b <<< 5) := by
      rw [xor_shiftLeft_distrib]
      simp [Nat.xor_assoc, Nat.xor_comm, nat_xor_left_comm]
    rw [h1, packSyms_start l ((a <<< 5) ^^^ x) (b <<< 5)]
    have hsh2 : (b <<< 5) <<< (5 * l.length) = b <<< (5 * (x :: l).length) := by
      rw [← Nat.shiftLeft_add]
      congr 1
      simp [List.length_cons]
      ring
    rw [hsh2]

theorem packSyms_cons (x : Nat) (l : List Nat) :
    packSyms (x :: l) = packSyms l ^^^ (x <<< (5 * l.length)) := by
  unfold packSyms
  rw [List.foldl_cons]
  have h0 : ((0 : Nat) <<< 5) ^^^ x = 0 ^^^ x := by simp
  rw [h0, packSyms_start l 0 x]

/-- Folding arbitrary bounded symbols equals folding zeros and XORing in the
packed symbols, provided they fit the register. -/
theorem polyFold_pack (gens : List Nat) (B : Nat) :
    ∀ (xs : List Nat) (r : Nat), (∀ x ∈ xs, x < 32) → 5 * xs.length ≤ B + 5 →
      xs.foldl (polyStep gens B (2 ^ B - 1)) r =
        (List.replicate xs.length 0).foldl (polyStep gens B (2 ^ B - 1)) r ^^^ packSyms xs
  | [], r, _, _ => by simp [packSyms]
  | x :: xs, r, hx, hlen => by
    have hlen5 : 5 * xs.length + 5 ≤ B + 5 := by
      simp only [List.length_cons] at hlen
      omega
    rw [List.foldl_cons, show (List.replicate (x :: xs).length 0) = 0 :: List.replicate xs.length 0
        from by rw [List.length_cons, List.replicate_succ],
      List.foldl_cons, polyStep_v_split gens B r x]
    have hbound : x <<< (5 * xs.length) < 2 ^ (B + 5) := by
      rw [Nat.shiftLeft_eq]
      calc x * 2 ^ (5 * xs.length) < 32 * 2 ^ (5 * xs.length) :=
            (Nat.mul_lt_mul_right (Nat.two_pow_pos _)).mpr (hx x (List.mem_cons_self x xs))
        _ = 2 ^ (5 * xs.length + 5) := by rw [pow_add]; ring
        _ ≤ 2 ^ (B + 5) := Nat.pow_le_pow_right (by norm_num) hlen5
    rw [polyFold_xor_small gens B xs (polyStep gens B (2 ^ B - 1) r 0) x hbound,
      polyFold_pack gens B xs (polyStep gens B (2 ^ B - 1) r 0)
        (fun w hw => hx w (List.mem_cons_of_mem x hw)) (by omega),
      packSyms_cons, Nat.xor_assoc]

/-- Packing the five-bit chunks of a register value recovers the value. -/
theorem packSyms_chunks :
    ∀ (n P : Nat), P < 2 ^ (5 * n) →
      packSyms ((List.range n).map (fun i => (P >>> (5 * (n - 1 - i))) &&& 31)) = P
  | 0, P, h => by
    simp only [List.range_zero, List.map_nil]
    have : P = 0 := by
      simp at h
      omega
    simp [packSyms, this]
  | n + 1, P, h => by
    have happ : ∀ (l : List Nat) (v : Nat),
        packSyms (l ++ [v]) = (packSyms l <<< 5) ^^^ v := by
      intro l v
      unfold packSyms
      rw [List.foldl_append]
      rfl
    rw [List.range_succ, List.map_append, List.map_cons, List.map_nil, happ]
    have hmap : (List.range n).map (fun i => (P >>> (5 * (n + 1 - 1 - i))) &&& 31) =
        (List.range n).map (fun i => ((P >>> 5) >>> (5 * (n - 1 - i))) &&& 31) := by
      apply List.map_congr_left
      intro i hi
      have hin : i < n := List.mem_range.mp hi
      rw [← Nat.shiftRight_add]
      congr 2
      omega
    have hP5 : P >>> 5 < 2 ^ (5 * n) := by
      rw [Nat.shiftRight_eq_div_pow]
      apply Nat.div_lt_of_lt_mul
      calc P < 2 ^ (5 * (n + 1)) := h
        _ = 2 ^ 5 * 2 ^ (5 * n) := by rw [← pow_add]; ring_nf
    rw [hmap, packSyms_chunks n (P >>> 5) hP5]
    have hz : 5 * (n + 1 - 1 - n) = 0 := by omega
    rw [hz, Nat.shiftRight_zero]
    exact shift_unshift P

/-- Generic form of "data plus created checksum folds to the target constant". -/
theorem polyFold_create (gens : List Nat) (B n : Nat) (h5n : 5 * n = B + 5)
    (hgb : ∀ b < 32, genXor gens b < 2 ^ (B + 5))
    (init : Nat) (hinit : init < 2 ^ (B + 5))
    (data : List Nat) (h32 : ∀ v ∈ data, v < 32) (C : Nat) (hC : C < 2 ^ (B + 5)) :
    (data ++ (List.range n).map (fun i =>
        (((data ++ List.replicate n 0).foldl (polyStep gens B (2 ^ B - 1)) init ^^^ C) >>>
          (5 * (n - 1 - i))) &&& 31)).foldl
      (polyStep gens B (2 ^ B - 1)) init = C := by
  set F := polyStep gens B (2 ^ B - 1) with hF
  set P := (data ++ List.replicate n 0).foldl F init ^^^ C with hPdef
  set cs := (List.range n).map (fun i => (P >>> (5 * (n - 1 - i))) &&& 31) with hcs
  have hzero : ∀ v ∈ List.replicate n (0 : Nat), v < 32 := by
    intro v hv
    rw [List.eq_of_mem_replicate hv]
    omega
  have hP : P < 2 ^ (B + 5) := by
    apply Nat.xor_lt_two_pow _ hC
    apply polyFold_bound gens B hgb _ init hinit
    intro v hv
    rcases List.mem_append.mp hv with hv | hv
    · exact h32 v hv
    · exact hzero v hv
  have hcs32 : ∀ v ∈ cs, v < 32 := by
    intro v hv
    rw [hcs] at hv
    rcases List.mem_map.mp hv with ⟨i, _, rfl⟩
    exact lt_of_le_of_lt Nat.and_le_right (by norm_num)
  have hcslen : cs.length = n := by
    rw [hcs, List.length_map, List.length_range]
  rw [List.foldl_append, polyFold_pack gens B cs _ hcs32 (by rw [hcslen]; omega), hcslen]
  have hchunks : packSyms cs = P := packSyms_chunks n P (by rw [h5n]; exact hP)
  rw [hchunks]
  have hzeros : (List.replicate n (0 : Nat)).foldl F (data.foldl F init) =
      (data ++ List.replicate n 0).foldl F init := (List.foldl_append ..).symm
  rw [hzeros]
  have hback : (data ++ List.replicate n 0).foldl F init = P ^^^ C := by
    rw [hPdef, Nat.xor_assoc, Nat.xor_self, Nat.xor_zero]
  rw [hback]
  -- (P ^^^ C) ^^^ P = C
  rw [Nat.xor_comm P C, Nat.xor_assoc, Nat.xor_self, Nat.xor_zero]



/-! ### Instantiation for the two generator configurations -/

theorem genXor_short_bound : ∀ b < 32, genXor MS32_GEN b < 2 ^ (60 + 5) := by decide

theorem genXor_short_low_inj : ∀ b1 < 32, ∀ b2 < 32,
    genXor MS32_GEN b1 % 32 = genXor MS32_GEN b2 % 32 → b1 = b2 := by decide

theorem genXor_long_bound : ∀ b < 32, genXor MS32_LONG_GEN b < 2 ^ (70 + 5) := by decide

theorem genXor_long_low_inj : ∀ b1 < 32, ∀ b2 < 32,
    genXor MS32_LONG_GEN b1 % 32 = genXor MS32_LONG_GEN b2 % 32 → b1 = b2 := by decide

theorem ms32_polymod_eq_fold (l : List Nat) :
    ms32_polymod l = l.foldl (polyStep MS32_GEN 60 (2 ^ 60 - 1)) 0x23181B3 := by
  have hmask : (0x0FFFFFFFFFFFFFFF : Nat) = 2 ^ 60 - 1 := by norm_num
  unfold ms32_polymod ms32_polymodStep
  rw [hmask]

theorem ms32_long_polymod_eq_fold (l : List Nat) :
    ms32_long_polymod l = l.foldl (polyStep MS32_LONG_GEN 70 (2 ^ 70 - 1)) 0x23181B3 := by
  have hmask : (0x3FFFFFFFFFFFFFFFFF : Nat) = 2 ^ 70 - 1 := by norm_num
  unfold ms32_long_polymod ms32_long_polymodStep
  rw [hmask]

/-- Changing a single symbol of a folded sequence always changes
`ms32_polymod` (the generator polynomial is nondegenerate in every
coordinate). -/
theorem ms32_polymod_single_ne (pre post : List Nat) (a c : Nat)
    (hpre : ∀ v ∈ pre, v < 32) (hpost : ∀ v ∈ post, v < 32)
    (ha : a < 32) (hc : c < 32) (hne : a ≠ c) :
    ms32_polymod (pre ++ a :: post) ≠ ms32_polymod (pre ++ c :: post) := by
  rw [ms32_polymod_eq_fold, ms32_polymod_eq_fold]
  exact polyFold_single_ne MS32_GEN 60 genXor_short_bound genXor_short_low_inj
    pre post a c 0x23181B3 hpre hpost ha hc (by norm_num) hne

/-- The short checksum construction folds back to `MS32_CONST`. -/
theorem ms32_create_checksum_valid (data : List Nat) (h32 : ∀ v ∈ data, v < 32)
    (hlen : data.length ≤ 80) :
    ms32_polymod (data ++ ms32_create_checksum data) = MS32_CONST := by
  unfold ms32_create_checksum
  rw [if_neg (by omega)]
  have h := polyFold_create MS32_GEN 60 13 (by norm_num) genXor_short_bound
    0x23181B3 (by norm_num) data h32 MS32_CONST (by norm_num [MS32_CONST])
  rw [← ms32_polymod_eq_fold] at h
  rw [ms32_polymod_eq_fold]
  exact h

/-- The long checksum construction folds back to `MS32_LONG_CONST`. -/
theorem ms32_create_long_checksum_valid (data : List Nat) (h32 : ∀ v ∈ data, v < 32) :
    ms32_long_polymod (data ++ ms32_create_long_checksum data) = MS32_LONG_CONST := by
  unfold ms32_create_long_checksum
  have h := polyFold_create MS32_LONG_GEN 70 15 (by norm_num) genXor_long_bound
    0x23181B3 (by norm_num) data h32 MS32_LONG_CONST (by norm_num [MS32_LONG_CONST])
  rw [← ms32_long_polymod_eq_fold] at h
  rw [ms32_long_polymod_eq_fold]
  exact h

/-- Appending the created checksum always yields a sequence accepted by
`ms32_verify_checksum`, for all supported data lengths. -/
theorem ms32_create_then_verify (data : List Nat) (h32 : ∀ v ∈ data, v < 32)
    (hlen32 : 32 ≤ data.length) (hlen : data.length ≤ 109) :
    ms32_verify_checksum (data ++ ms32_create_checksum data) = true := by
  by_cases h80 : data.length ≤ 80
  · have hcs_len : (ms32_create_checksum data).length = 13 := by
      unfold ms32_create_checksum
      rw [if_neg (by omega)]
      simp
    unfold ms32_verify_checksum
    rw [List.length_append, hcs_len, if_neg (by omega), if_pos (by omega)]
    simp [ms32_create_checksum_valid data h32 h80]
  · have hcs : ms32_create_checksum data = ms32_create_long_checksum data := by
      unfold ms32_create_checksum
      rw [if_pos (by omega)]
    have hcs_len : (ms32_create_long_checksum data).length = 15 := by
      unfold ms32_create_long_checksum
      simp
    unfold ms32_verify_checksum ms32_verify_long_checksum
    rw [hcs, List.length_append, hcs_len, if_pos (by omega)]
    simp [ms32_create_long_checksum_valid data h32]

/-- Created checksum symbols are field elements. -/
theorem ms32_create_checksum_lt (data : List Nat) :
    ∀ v ∈ ms32_create_checksum data, v < 32 := by
  intro v hv
  unfold ms32_create_checksum at hv
  split at hv
  · unfold ms32_create_long_checksum at hv
    rcases List.mem_map.mp hv with ⟨i, _, rfl⟩
    exact lt_of_le_of_lt Nat.and_le_right (by norm_num)
  · rcases List.mem_map.mp hv with ⟨i, _, rfl⟩
    exact lt_of_le_of_lt Nat.and_le_right (by norm_num)



theorem charset_ascii : ∀ c ∈ CHARSET, 33 ≤ c.toNat ∧ c.toNat ≤ 126 := by decide

theorem charset_lower : ∀ c ∈ CHARSET, pyLowerChar c = c := by decide

theorem charset_no_one : '1' ∉ CHARSET := by decide

theorem charsetChar_mem : ∀ d < 32, charsetChar d ∈ CHARSET := by decide

theorem charsetIndex_charsetChar : ∀ d < 32, charsetIndex (charsetChar d) = d := by decide

theorem charsetIndex_lt : ∀ c ∈ CHARSET, charsetIndex c < 32 := by decide

theorem charsetIndex_inj : ∀ c1 ∈ CHARSET, ∀ c2 ∈ CHARSET,
    charsetIndex c1 = charsetIndex c2 → c1 = c2 := by decide

theorem rfind_eq_none {c : Char} : ∀ {s : List Char}, c ∉ s → rfind s c = none
  | [], _ => rfl
  | x :: xs, h => by
    unfold rfind
    rw [rfind_eq_none (fun hx => h (List.mem_cons_of_mem x hx))]
    rw [if_neg (fun he => h (by rw [← he]; exact List.mem_cons_self x xs))]

theorem rfind_ms1 (rest : List Char) (h : '1' ∉ rest) :
    rfind ('m' :: 's' :: '1' :: rest) '1' = some 2 := by
  have h0 : rfind rest '1' = none := rfind_eq_none h
  simp [rfind, h0]

theorem pyLower_eq_self {s : List Char} (h : ∀ c ∈ s, pyLowerChar c = c) : pyLower s = s := by
  unfold pyLower
  rw [List.map_congr_left h, List.map_id']

/-- Evaluating `_decode_data_values` on a lowercase well-formed string
`"ms1" ++ rest` with charset data characters: only the threshold, the
share-index rule and the checksum remain to be checked. -/
theorem decode_wf (rest : List Char)
    (hre : ∀ c ∈ rest, c ∈ CHARSET) (h45 : 45 ≤ rest.length) (h124 : rest.length ≤ 124) :
    _decode_data_values ('m' :: 's' :: '1' :: rest) =
      (if rest.headD ' ' ∉ ['0','2','3','4','5','6','7','8','9'] then
        Except.error "Codex32 threshold must be 0 or 2-9"
      else if rest.headD ' ' = '0' ∧ rest.getD 5 ' ' ≠ 's' then
        Except.error "Codex32 share index must be s when threshold is 0"
      else if ¬ ms32_verify_checksum (rest.map charsetIndex) then
        Except.error "Codex32 checksum failed"
      else Except.ok (rest.map charsetIndex, "lower")) := by
  have hlowc : ∀ c ∈ ('m' :: 's' :: '1' :: rest), pyLowerChar c = c := by
    intro c hc
    simp only [List.mem_cons] at hc
    rcases hc with rfl | rfl | rfl | hc
    · rfl
    · rfl
    · rfl
    · exact charset_lower c (hre c hc)
  have hlow : pyLower ('m' :: 's' :: '1' :: rest) = 'm' :: 's' :: '1' :: rest :=
    pyLower_eq_self hlowc
  have hasc : (('m' :: 's' :: '1' :: rest).any fun x =>
      decide (x.toNat < 33 ∨ 126 < x.toNat)) = false := by
    rw [List.any_eq_false]
    intro c hc
    simp only [List.mem_cons] at hc
    simp only [decide_eq_true_eq, not_or, not_lt]
    rcases hc with rfl | rfl | rfl | hc
    · exact ⟨by decide, by decide⟩
    · exact ⟨by decide, by decide⟩
    · exact ⟨by decide, by decide⟩
    · have := charset_ascii c (hre c hc)
      omega
  have hnup : ¬ ('m' :: 's' :: '1' :: rest) = pyUpper ('m' :: 's' :: '1' :: rest) := by
    intro h
    have hh : ('m' :: 's' :: '1' :: rest).headD ' ' =
        (pyUpper ('m' :: 's' :: '1' :: rest)).headD ' ' := by rw [← h]
    simp [pyUpper, pyUpperChar] at hh
  have hone : '1' ∉ rest := fun h1 => charset_no_one (hre '1' h1)
  have hall : rest.all (· ∈ CHARSET) = true := by
    rw [List.all_eq_true]
    intro c hc
    simpa using hre c hc
  have hne_nil : rest ≠ [] := by
    intro h0
    rw [h0] at h45
    simp at h45
  unfold _decode_data_values
  rw [if_neg (by rw [hasc]; exact Bool.false_ne_true)]
  rw [if_neg (fun hcon => hcon (Or.inl hlow.symm))]
  rw [if_neg hnup]
  rw [hlow]
  simp only [rfind_ms1 rest hone]
  rw [if_neg (by
    simp only [List.length_cons]
    push_neg
    exact ⟨by omega, by omega, by omega⟩)]
  rw [if_neg (fun hne => hne rfl)]
  simp only [List.drop_succ_cons, List.drop_zero]
  rw [if_neg (by simp [List.isEmpty_iff, hne_nil])]
  rw [if_neg (by rw [hall]; simp)]
  exact if_congr Iff.rfl rfl
    (if_congr ⟨fun h => ⟨h.1, h.2.2⟩, fun h => ⟨h.1, by omega, h.2⟩⟩ rfl rfl)



/-- `getD` through a `map`, at an in-range index. -/
theorem getD_map_lt {α β : Type} (f : α → β) (l : List α) (n : Nat)
    (h : n < l.length) (d : β) (d2 : α) : (l.map f).getD n d = f (l.getD n d2) := by
  rw [List.getD_eq_getElem (l.map f) d (by simpa using h), List.getD_eq_getElem l d2 h,
    List.getElem_map]

/-- Character-to-index round trip on a bounded symbol list. -/
theorem map_charsetIndex_charsetChar (l : List Nat) (h : ∀ v ∈ l, v < 32) :
    (l.map charsetChar).map charsetIndex = l := by
  rw [List.map_map]
  have : ∀ v ∈ l, (charsetIndex ∘ charsetChar) v = v := by
    intro v hv
    exact charsetIndex_charsetChar v (h v hv)
  rw [List.map_congr_left this, List.map_id']

/-- C5 amended-free round trip: encoding a well-formed data part and parsing
it back succeeds, returning exactly the original values followed by the
created checksum, which verifies. -/
theorem c5_roundtrip (data : List Nat) (h32 : ∀ v ∈ data, v < 32)
    (hlen32 : 32 ≤ data.length) (hlen : data.length ≤ 109)
    (hthr : data.headD 0 ∈ [15, 10, 17, 21, 20, 26, 30, 7, 5])
    (hidx : data.headD 0 = 15 → data.getD 5 0 = 16) :
    _decode_data_values (ms32_encode data) =
      .ok (data ++ ms32_create_checksum data, "lower") ∧
    ms32_verify_checksum (data ++ ms32_create_checksum data) = true := by
  have hver := ms32_create_then_verify data h32 hlen32 hlen
  refine ⟨?_, hver⟩
  set combined := data ++ ms32_create_checksum data with hcombined
  have hcomb32 : ∀ v ∈ combined, v < 32 := by
    intro v hv
    rcases List.mem_append.mp hv with hv | hv
    · exact h32 v hv
    · exact ms32_create_checksum_lt data v hv
  have hcsl : (ms32_create_checksum data).length = 13 ∨
      (ms32_create_checksum data).length = 15 := by
    unfold ms32_create_checksum ms32_create_long_checksum
    split
    · right
      simp
    · left
      simp
  have hcomblen1 : 45 ≤ combined.length := by
    rw [hcombined, List.length_append]
    omega
  have hcomblen2 : combined.length ≤ 124 := by
    rw [hcombined, List.length_append]
    omega
  have hre : ∀ c ∈ combined.map charsetChar, c ∈ CHARSET := by
    intro c hc
    rcases List.mem_map.mp hc with ⟨v, hv, rfl⟩
    exact charsetChar_mem v (hcomb32 v hv)
  have hencode : ms32_encode data = 'm' :: 's' :: '1' :: combined.map charsetChar := rfl
  rw [hencode, decode_wf (combined.map charsetChar) hre (by simpa using hcomblen1)
    (by simpa using hcomblen2)]
  have hdatapos : 0 < data.length := by omega
  have hhead : (combined.map charsetChar).headD ' ' = charsetChar (data.headD 0) := by
    rcases data with _ | ⟨d0, dt⟩
    · simp at hdatapos
    · rfl
  have hroundtrip : (combined.map charsetChar).map charsetIndex = combined :=
    map_charsetIndex_charsetChar combined hcomb32
  have hthrchar : charsetChar (data.headD 0) ∈ ['0','2','3','4','5','6','7','8','9'] := by
    simp only [List.mem_cons, List.not_mem_nil, or_false] at hthr
    rcases hthr with h | h | h | h | h | h | h | h | h <;> rw [h] <;> decide
  rw [if_neg (by rw [hhead]; exact not_not_intro hthrchar)]
  have hrule : ¬ ((combined.map charsetChar).headD ' ' = '0' ∧
      (combined.map charsetChar).getD 5 ' ' ≠ 's') := by
    rintro ⟨h0, h5⟩
    rw [hhead] at h0
    have hd0 : data.headD 0 = 15 := by
      have hlt : data.headD 0 < 32 := by
        rcases data with _ | ⟨d0, dt⟩
        · simp at hdatapos
        · exact h32 d0 (List.mem_cons_self d0 dt)
      have := charsetIndex_charsetChar (data.headD 0) hlt
      rw [h0] at this
      simpa using this.symm
    have h16 := hidx hd0
    apply h5
    have h5lt : 5 < combined.length := by omega
    rw [getD_map_lt charsetChar combined 5 h5lt ' ' 0]
    have hc5 : combined.getD 5 0 = data.getD 5 0 := by
      rw [hcombined]
      rw [List.getD_append _ _ _ _ (by omega)]
    rw [hc5, h16]
    rfl
  rw [if_neg hrule]
  rw [hroundtrip]
  rw [if_neg (by rw [hver]; simp)]


/-- Witness for `c5_roundtrip` on a 32-symbol data part with threshold 2. -/
theorem c5_witness :
    32 ≤ (10 :: List.replicate 31 0 : List Nat).length ∧
    (_decode_data_values (ms32_encode (10 :: List.replicate 31 0)) =
      .ok ((10 :: List.replicate 31 0) ++ ms32_create_checksum (10 :: List.replicate 31 0),
        "lower") ∧
     ms32_verify_checksum
       ((10 :: List.replicate 31 0) ++ ms32_create_checksum (10 :: List.replicate 31 0)) =
       true) :=
  ⟨by decide, c5_roundtrip (10 :: List.replicate 31 0) (by decide) (by decide) (by decide)
    (by decide) (by decide)⟩


/-! ### List and string helpers for the single-error claim -/

theorem set_getD_self {α : Type} (l : List α) (n : Nat) (d : α) (h : n < l.length) :
    l.set n (l.getD n d) = l := by
  rw [List.getD_eq_getElem l d h]
  apply List.ext_getElem
  · simp
  · intro i h1 h2
    by_cases hin : i = n
    · subst hin
      simp [List.getElem_set_self]
    · simp [List.getElem_set_ne (h := fun he => hin he.symm)]

theorem getD_set_self {α : Type} (l : List α) (n : Nat) (a d : α) (h : n < l.length) :
    (l.set n a).getD n d = a := by
  rw [List.getD_eq_getElem _ d (by simpa using h)]
  exact List.getElem_set_self (by simpa using h)

theorem getD_mem {α : Type} (l : List α) (n : Nat) (d : α) (h : n < l.length) :
    l.getD n d ∈ l := by
  rw [List.getD_eq_getElem l d h]
  exact List.getElem_mem h

theorem pyStrip_eq_self (l : List Char) (h : ∀ ch ∈ l, pyIsSpace ch = false) :
    pyStrip l = l := by
  unfold pyStrip
  have h1 : l.dropWhile pyIsSpace = l := by
    cases l with
    | nil => rfl
    | cons x xs => exact List.dropWhile_cons_of_neg (by simp [h x (List.mem_cons_self x xs)])
  rw [h1]
  have h2 : l.reverse.dropWhile pyIsSpace = l.reverse := by
    cases hr : l.reverse with
    | nil => rfl
    | cons x xs =>
      refine List.dropWhile_cons_of_neg ?_
      have hx : x ∈ l := by
        rw [← List.mem_reverse, hr]
        exact List.mem_cons_self x xs
      simp [h x hx]
  rw [h2, List.reverse_reverse]

theorem rfind_getD : ∀ (s : List Char) (c : Char) (p : Nat),
    rfind s c = some p → s.getD p ' ' = c
  | [], c, p => by
    intro h
    simp [rfind] at h
  | x :: xs, c, p => by
    intro h
    unfold rfind at h
    cases hr : rfind xs c with
    | some q =>
      rw [hr] at h
      injection h with h
      subst h
      simpa [List.getD_cons_succ] using rfind_getD xs c q hr
    | none =>
      rw [hr] at h
      by_cases hx : x = c
      · rw [if_pos hx] at h
        injection h with h
        subst h
        simpa [List.getD_cons_zero] using hx
      · rw [if_neg hx] at h
        exact absurd h (by simp)

theorem parse_isOk_eq (s : List Char) :
    (Codex32String.parse s).isOk = (_decode_data_values s).isOk := by
  unfold Codex32String.parse
  cases _decode_data_values s <;> rfl

set_option maxHeartbeats 2000000 in
/-- Inversion: a successfully decoded lowercase 48-character string has the
shape `"ms1" ++ rest` with 45 charset characters whose mapped values verify. -/
theorem decode_ok_shape (s : List Char) (hlow : s = pyLower s) (hl : s.length = 48)
    (vals : List Nat) (cs : String)
    (hok : _decode_data_values s = .ok (vals, cs)) :
    ∃ rest, s = 'm' :: 's' :: '1' :: rest ∧ (∀ c ∈ rest, c ∈ CHARSET) ∧
      rest.length = 45 ∧ vals = rest.map charsetIndex ∧
      ms32_verify_checksum vals = true := by
  unfold _decode_data_values at hok
  rw [← hlow] at hok
  split at hok
  · exact absurd hok (by simp)
  · split at hok
    · exact absurd hok (by simp)
    · split at hok <;>
      · dsimp only at hok
        split at hok
        · exact absurd hok (by simp)
        · rename_i pos hfind
          split at hok
          · exact absurd hok (by simp)
          · rename_i hguard
            split at hok
            · exact absurd hok (by simp)
            · rename_i htake
              push_neg at hguard
              have hpos2 : pos = 2 := by
                have htl : (s.take pos).length = 2 := by
                  rw [not_not] at htake
                  rw [htake]
                  rfl
                rw [List.length_take] at htl
                omega
              subst hpos2
              rw [not_not] at htake
              have hs1 : s.getD 2 ' ' = '1' := rfind_getD s '1' 2 hfind
              have hshape : s = 'm' :: 's' :: '1' :: s.drop 3 := by
                have h0 : s = s.take 2 ++ s.drop 2 := (List.take_append_drop 2 s).symm
                have h2 : s.drop 2 = s[2] :: s.drop 3 :=
                  List.drop_eq_getElem_cons (by omega)
                have h2v : s[2] = '1' := by
                  rw [List.getD_eq_getElem s ' ' (by omega)] at hs1
                  exact hs1
                rw [h2, h2v] at h0
                rw [htake] at h0
                exact h0
              split at hok
              · exact absurd hok (by simp)
              · split at hok
                · exact absurd hok (by simp)
                · rename_i hcharset
                  split at hok
                  · exact absurd hok (by simp)
                  · split at hok
                    · exact absurd hok (by simp)
                    · split at hok
                      · exact absurd hok (by simp)
                      · rename_i hver
                        have hv := Except.ok.inj hok
                        have hvals : vals = (s.drop (2 + 1)).map charsetIndex :=
                          (congrArg Prod.fst hv).symm
                        refine ⟨s.drop 3, hshape, ?_, ?_, hvals, ?_⟩
                        · intro c hc
                          rw [not_not, List.all_eq_true] at hcharset
                          simpa using hcharset c (by simpa using hc)
                        · rw [List.length_drop, hl]
                        · rw [not_not] at hver
                          rw [hvals]
                          exact hver


theorem charset_not_space : ∀ c ∈ CHARSET, pyIsSpace c = false := by decide

/-- Substituting a different charset character at any single data-part
position of a valid lowercase 48-character codex32 string makes it fail
validation: the change perturbs `ms32_polymod` away from `MS32_CONST`. -/
theorem single_flip_invalid (s : List Char) (p : Nat) (c : Char)
    (hok : (_decode_data_values s).isOk = true) (hlow : s = pyLower s)
    (hlen : s.length = 48) (hp3 : 3 ≤ p) (hp : p < 48)
    (hc : c ∈ CHARSET) (hne : c ≠ s.getD p ' ') :
    _validate_codex32 (s.set p c) = false := by
  cases hd : _decode_data_values s with
  | error e =>
    rw [hd] at hok
    simp [Except.isOk, Except.toBool] at hok
  | ok vc =>
  obtain ⟨vals, cstr⟩ := vc
  obtain ⟨rest, hshape, hre, hrl, hvals, hver⟩ := decode_ok_shape s hlow hlen vals cstr hd
  have hp3' : p = (p - 3) + 3 := by omega
  have hrestp : p - 3 < rest.length := by omega
  have hsp : s.getD p ' ' = rest.getD (p - 3) ' ' := by
    rw [hshape, hp3']
    simp [List.getD_cons_succ]
  have hcor : s.set p c = 'm' :: 's' :: '1' :: rest.set (p - 3) c := by
    rw [hshape, hp3']
    rfl
  have hre2 : ∀ ch ∈ rest.set (p - 3) c, ch ∈ CHARSET := by
    intro ch hch
    rcases List.mem_or_eq_of_mem_set hch with h | h
    · exact hre ch h
    · subst h
      exact hc
  have hrl2 : (rest.set (p - 3) c).length = 45 := by
    rw [List.length_set]
    exact hrl
  have hmapset : (rest.set (p - 3) c).map charsetIndex =
      (rest.map charsetIndex).set (p - 3) (charsetIndex c) := List.map_set
  have hvl : (rest.map charsetIndex).length = 45 := by
    rw [List.length_map]
    exact hrl
  have hklt : p - 3 < (rest.map charsetIndex).length := by omega
  have hvals32 : ∀ v ∈ rest.map charsetIndex, v < 32 := by
    intro v hv
    rcases List.mem_map.mp hv with ⟨ch, hch, rfl⟩
    exact charsetIndex_lt ch (hre ch hch)
  have hne_idx : charsetIndex c ≠ (rest.map charsetIndex).getD (p - 3) 0 := by
    intro hix
    rw [getD_map_lt charsetIndex rest (p - 3) hrestp 0 ' '] at hix
    exact hne (by
      rw [hsp]
      exact charsetIndex_inj c hc _ (hre _ (getD_mem rest (p - 3) ' ' hrestp)) hix)
  have hcm : ms32_polymod (rest.map charsetIndex) = MS32_CONST := by
    rw [hvals] at hver
    unfold ms32_verify_checksum at hver
    rw [if_neg (by rw [hvl]; norm_num), if_pos (by rw [hvl]; norm_num)] at hver
    exact of_decide_eq_true hver
  have hpolyne : ms32_polymod ((rest.map charsetIndex).set (p - 3) (charsetIndex c)) ≠
      ms32_polymod (rest.map charsetIndex) := by
    have hdecomp : (rest.map charsetIndex).set (p - 3) (charsetIndex c) =
        (rest.map charsetIndex).take (p - 3) ++
          charsetIndex c :: (rest.map charsetIndex).drop (p - 3 + 1) :=
      List.set_eq_take_cons_drop _ hklt
    have hdecomp0 : ms32_polymod (rest.map charsetIndex) =
        ms32_polymod ((rest.map charsetIndex).take (p - 3) ++
          (rest.map charsetIndex).getD (p - 3) 0 ::
            (rest.map charsetIndex).drop (p - 3 + 1)) := by
      conv_lhs => rw [← set_getD_self (rest.map charsetIndex) (p - 3) 0 hklt]
      rw [List.set_eq_take_cons_drop _ hklt]
    rw [hdecomp, hdecomp0]
    apply ms32_polymod_single_ne
    · intro v hv
      exact hvals32 v (List.mem_of_mem_take hv)
    · intro v hv
      exact hvals32 v (List.mem_of_mem_drop hv)
    · exact charsetIndex_lt c hc
    · exact hvals32 _ (getD_mem _ _ 0 hklt)
    · exact hne_idx
  have hverfail : ms32_verify_checksum ((rest.set (p - 3) c).map charsetIndex) = false := by
    rw [hmapset]
    unfold ms32_verify_checksum
    rw [if_neg (by rw [List.length_set, hvl]; norm_num),
      if_pos (by rw [List.length_set, hvl]; norm_num)]
    apply decide_eq_false
    intro heq
    exact hpolyne (heq.trans hcm.symm)
  have hdec2 : (_decode_data_values (s.set p c)).isOk = false := by
    rw [hcor, decode_wf (rest.set (p - 3) c) hre2 (le_of_eq hrl2.symm)
      (by rw [hrl2]; norm_num)]
    split
    · rfl
    · split
      · rfl
      · split
        · rfl
        · rename_i h3
          exact absurd (not_not.mp h3) (by rw [hverfail]; simp)
  unfold _validate_codex32
  rw [parse_isOk_eq]
  exact hdec2

/-- `try_correct_errors` on a stripped, non-empty, invalid input that has a
valid one-error candidate reports success and returns that candidate. -/
theorem try_correct_found (s0 : List Char) (hstrip : pyStrip s0 = s0)
    (hne : s0.isEmpty = false) (hinv : _validate_codex32 s0 = false)
    (cand : CorrectionCandidate) (hmem : cand ∈ _candidates_at s0 1) :
    (try_correct_errors s0 1 false).success = true ∧
    cand ∈ (try_correct_errors s0 1 false).candidates := by
  have hcs : (_candidates_at s0 1).isEmpty = false := by
    cases h : _candidates_at s0 1 with
    | nil => rw [h] at hmem; simp at hmem
    | cons a t => rfl
  have hsearch : _search_counts s0 false [1] = _candidates_at s0 1 := by
    unfold _search_counts
    dsimp only
    rw [hcs]
    rfl
  have hrange : List.range' 1 (min 1 4) = [1] := rfl
  unfold try_correct_errors
  rw [hstrip]
  dsimp only
  rw [hne, hinv, hrange, hsearch, hcs]
  simp only [if_neg (show ¬(false = true) by decide)]
  exact ⟨trivial, hmem⟩

/-- `try_correct_errors` on a stripped, non-empty, invalid input with no
one-error candidate reports failure. -/
theorem try_correct_none (s0 : List Char) (hstrip : pyStrip s0 = s0)
    (hne : s0.isEmpty = false) (hinv : _validate_codex32 s0 = false)
    (hempty : _candidates_at s0 1 = []) :
    (try_correct_errors s0 1 false).success = false := by
  have hsearch : _search_counts s0 false [1] = [] := by
    unfold _search_counts
    dsimp only
    rw [hempty]
    rfl
  have hrange : List.range' 1 (min 1 4) = [1] := rfl
  unfold try_correct_errors
  rw [hstrip]
  dsimp only
  rw [hne, hinv, hrange, hsearch]
  simp only [if_neg (show ¬(false = true) by decide)]
  rfl

set_option maxHeartbeats 2000000 in
/-- C3 amended: for a valid lowercase 48-character codex32 string, corrupting
any single data-part position with a different charset character yields an
invalid string, and the one-error search finds the original string as a
candidate with error count 1. -/
theorem c3_amended_single_flip (s : List Char) (p : Nat) (c : Char)
    (hok : (Codex32String.parse s).isOk = true) (hlow : s = pyLower s)
    (hlen : s.length = 48) (hp3 : 3 ≤ p) (hp : p < 48)
    (hc : c ∈ CHARSET) (hne : c ≠ s.getD p ' ') :
    (Codex32String.parse (s.set p c)).isOk = false ∧
    (try_correct_errors (s.set p c) 1 false).success = true ∧
    ({ corrected_string := s, original_string := s.set p c, error_count := 1,
       error_positions := [p], error_details := [(p, c, s.getD p ' ')] } :
      CorrectionCandidate) ∈ (try_correct_errors (s.set p c) 1 false).candidates := by
  rw [parse_isOk_eq] at hok
  have hinv : _validate_codex32 (s.set p c) = false :=
    single_flip_invalid s p c hok hlow hlen hp3 hp hc hne
  cases hd : _decode_data_values s with
  | error e =>
    rw [hd] at hok
    simp [Except.isOk, Except.toBool] at hok
  | ok vc =>
  obtain ⟨vals, cstr⟩ := vc
  obtain ⟨rest, hshape, hre, hrl, hvals, hver⟩ := decode_ok_shape s hlow hlen vals cstr hd
  have hp3' : p = (p - 3) + 3 := by omega
  have hrestp : p - 3 < rest.length := by omega
  have hsp : s.getD p ' ' = rest.getD (p - 3) ' ' := by
    rw [hshape, hp3']
    simp [List.getD_cons_succ]
  have hspmem : s.getD p ' ' ∈ CHARSET := by
    rw [hsp]
    exact hre _ (getD_mem rest (p - 3) ' ' hrestp)
  refine ⟨hinv, ?_⟩
  have hspace : ∀ ch ∈ s.set p c, pyIsSpace ch = false := by
    intro ch hch
    rcases List.mem_or_eq_of_mem_set hch with h | h
    · rw [hshape] at h
      simp only [List.mem_cons] at h
      rcases h with rfl | rfl | rfl | h
      · rfl
      · rfl
      · rfl
      · exact charset_not_space ch (hre ch h)
    · subst h
      exact charset_not_space ch hc
  have hstrip : pyStrip (s.set p c) = s.set p c := pyStrip_eq_self _ hspace
  have hlen2 : (s.set p c).length = 48 := by
    rw [List.length_set]
    exact hlen
  have hlow2 : pyLower (s.set p c) = s.set p c := by
    have hm : pyLower (s.set p c) = (pyLower s).set p (pyLowerChar c) := List.map_set
    rw [hm, ← hlow, charset_lower c hc]
  have hnemp : (s.set p c).isEmpty = false := by
    cases h0 : s.set p c with
    | nil => rw [h0] at hlen2; simp at hlen2
    | cons a t => rfl
  have hvalid_s : _validate_codex32 s = true := by
    unfold _validate_codex32
    rw [parse_isOk_eq, hd]
    rfl
  have horig : (s.set p c).getD p ' ' = c := getD_set_self s p c ' ' (by omega)
  have hmod : (s.set p c).set p (s.getD p ' ') = s := by
    rw [List.set_set]
    exact set_getD_self s p ' ' (by omega)
  have htmem : ((s : List Char), p, c, s.getD p ' ') ∈
      _generate_single_substitutions (s.set p c) := by
    unfold _generate_single_substitutions
    rw [hlow2]
    dsimp only
    rw [hlen2]
    apply List.mem_flatMap.mpr
    refine ⟨p, List.mem_range'_1.mpr ⟨hp3, by omega⟩, ?_⟩
    apply List.mem_map.mpr
    refine ⟨s.getD p ' ', List.mem_filter.mpr ⟨hspmem, ?_⟩, ?_⟩
    · rw [horig]
      exact decide_eq_true (fun h => hne h.symm)
    · dsimp only
      rw [horig, hmod]
  have hcand : ({ corrected_string := s, original_string := s.set p c,
                  error_count := 1, error_positions := [p],
                  error_details := [(p, c, s.getD p ' ')] } :
      CorrectionCandidate) ∈ _candidates_at (s.set p c) 1 := by
    unfold _candidates_at
    rw [if_pos rfl]
    apply List.mem_filterMap.mpr
    refine ⟨(s, p, c, s.getD p ' '), htmem, ?_⟩
    dsimp only
    rw [if_pos hvalid_s]
  exact try_correct_found (s.set p c) hstrip hnemp hinv _ hcand



set_option maxRecDepth 16000 in
set_option maxHeartbeats 2000000 in
/-- C3 counterexample: the uppercase BIP-93 vector-2 S share is a valid
48-character codex32 string and the charset character s differs from its
character at position 8 (the uppercase S), yet `try_correct_errors` with
`max_errors = 1` fails on the substituted string: the single-substitution
generator works on the lowercased input, which is already a valid string, so
every generated candidate changes one symbol of a valid string and none
survives validation. -/
theorem c3_counterexample :
    (Codex32String.parse vector2SChars).isOk = true ∧
    vector2SChars.length = 48 ∧
    's' ∈ CHARSET ∧ 's' ≠ vector2SChars.getD 8 ' ' ∧
    (Codex32String.parse (vector2SChars.set 8 's')).isOk = false ∧
    (try_correct_errors (vector2SChars.set 8 's') 1 false).success = false := by
  have hlowcor : pyLower (vector2SChars.set 8 's') = c3LowerChars := by decide
  refine ⟨by decide, by rfl, by decide, by decide, by decide, ?_⟩
  apply try_correct_none
  · decide
  · rfl
  · decide
  · unfold _candidates_at
    rw [if_pos rfl]
    apply List.filterMap_eq_nil_iff.mpr
    intro t ht
    unfold _generate_single_substitutions at ht
    rw [hlowcor] at ht
    dsimp only at ht
    obtain ⟨pos, hpos, ht⟩ := List.mem_flatMap.mp ht
    obtain ⟨hpos1, hpos2⟩ := List.mem_range'_1.mp hpos
    obtain ⟨nw, hnw, rfl⟩ := List.mem_map.mp ht
    obtain ⟨hnwC, hnwne⟩ := List.mem_filter.mp hnw
    dsimp only
    have h48 : c3LowerChars.length = 48 := by rfl
    have hne2 : nw ≠ c3LowerChars.getD pos ' ' := of_decide_eq_true hnwne
    have hval : _validate_codex32 (c3LowerChars.set pos nw) = false :=
      single_flip_invalid c3LowerChars pos nw (by decide) (by rfl) (by rfl)
        hpos1 (by omega) hnwC hne2
    rw [hval]
    rfl

set_option maxRecDepth 16000 in
theorem c3_amended_witness :
    ((Codex32String.parse c3LowerChars).isOk = true ∧
      c3LowerChars = pyLower c3LowerChars ∧ c3LowerChars.length = 48 ∧
      3 ≤ 10 ∧ 10 < 48 ∧ 'z' ∈ CHARSET ∧ 'z' ≠ c3LowerChars.getD 10 ' ') ∧
    ((Codex32String.parse (c3LowerChars.set 10 'z')).isOk = false ∧
      (try_correct_errors (c3LowerChars.set 10 'z') 1 false).success = true ∧
      ({ corrected_string := c3LowerChars, original_string := c3LowerChars.set 10 'z',
         error_count := 1, error_positions := [10],
         error_details := [(10, 'z', c3LowerChars.getD 10 ' ')] } :
        CorrectionCandidate) ∈
        (try_correct_errors (c3LowerChars.set 10 'z') 1 false).candidates) :=
  ⟨⟨by decide, by rfl, by rfl, by norm_num, by norm_num, by decide, by decide⟩,
    c3_amended_single_flip c3LowerChars 10 'z' (by decide) (by rfl) (by rfl)
      (by norm_num) (by norm_num) (by decide) (by decide)⟩

end Codex32
